import Mathlib

/-!
Verification of the transactional accounting core: the double-entry ledger
(`codex-ledger`: posting, period locks, reversals, audit trail) and the
reconciliation engine (`codex-reconcile`: sessions, match candidates, scoring).

Modelling conventions:
* Rust `i64` amounts are embedded as `ℤ` (no arithmetic here approaches the
  64-bit range), `f64`/`f32` values (exchange rates, scores, weights) as `ℚ`
  with exact arithmetic, `f64::round` as round-half-away-from-zero.
* `HashMap` state is embedded as an association list with key-overwriting
  insert (`minsert`), so lookup and length behave like the Rust map; no code
  path iterates a `HashMap`, so ordering is irrelevant.
* `SystemTime::now()` / `Utc::now()` and `Uuid::new_v4()` are nondeterministic
  inputs; the embedding threads them as explicit parameters (`now`, fresh ids).
* Rust methods that mutate `&mut self` and may fail mid-way are embedded as
  state-passing functions returning the (possibly partially) mutated value
  together with an `Except` result, exactly mirroring the source control flow.
-/

namespace CodexAcct

/-- Rounding half away from zero: the behaviour of Rust `f64::round`. -/
def roundAway (q : ℚ) : ℤ :=
  if 0 ≤ q then ⌊q + 1/2⌋ else -⌊1/2 - q⌋

/-- Rust `clamp` on rationals. -/
def clampQ (x lo hi : ℚ) : ℚ := max lo (min x hi)

/-- Association-list lookup, modelling `HashMap::get`. -/
def mfind {κ α : Type} [DecidableEq κ] : List (κ × α) → κ → Option α
  | [], _ => none
  | (k, v) :: rest, key => if k = key then some v else mfind rest key

/-- Association-list insert-or-overwrite, modelling `HashMap::insert`; the
filter keeps keys unique so `List.length` models `HashMap::len`. -/
def minsert {κ α : Type} [DecidableEq κ] (m : List (κ × α)) (k : κ) (v : α) :
    List (κ × α) :=
  (k, v) :: m.filter (fun p => decide (p.1 ≠ k))

/-! ## Ledger value types (`codex-ledger/src/lib.rs`) -/

structure Currency where
  code : String
  precision : ℕ
deriving DecidableEq, Repr

structure CurrencyRate where
  base : Currency
  quote : Currency
  rate : ℚ
  source : Option String
  observed_at : ℕ
deriving DecidableEq, Repr

structure TaxCode where
  code : String
  description : String
  rate_percent : ℚ
deriving DecidableEq, Repr

inductive PostingSide
  | Debit
  | Credit
deriving DecidableEq, Repr

inductive EntryStatus
  | Draft
  | Proposed
  | Posted
  | Reversed
deriving DecidableEq, Repr

inductive EntryOrigin
  | Manual
  | Ingestion
  | AiSuggested
  | Adjustment
deriving DecidableEq, Repr

inductive ReconciliationStatus
  | Unreconciled
  | Pending (session_id : String)
  | Reconciled (session_id : String)
  | WriteOff (approval_reference : String)
deriving DecidableEq, Repr

structure JournalLine where
  id : String
  account_id : String
  side : PostingSide
  amount_minor : ℤ
  currency : Currency
  functional_amount_minor : ℤ
  functional_currency : Currency
  exchange_rate : Option CurrencyRate
  tax_code : Option TaxCode
  memo : Option String
deriving DecidableEq, Repr

structure JournalEntry where
  id : String
  journal_id : String
  status : EntryStatus
  reconciliation_status : ReconciliationStatus
  lines : List JournalLine
  origin : EntryOrigin
  memo : Option String
  reverses_entry_id : Option String
  reversed_by_entry_id : Option String
deriving DecidableEq, Repr

inductive AccountType
  | Asset
  | Liability
  | Equity
  | Revenue
  | Expense
  | OffBalance
deriving DecidableEq, Repr

inductive CurrencyMode
  | FunctionalOnly
  | Transactional
  | MultiCurrency
deriving DecidableEq, Repr

structure Account where
  id : String
  company_id : String
  code : String
  name : String
  account_type : AccountType
  parent_account_id : Option String
  currency_mode : CurrencyMode
  tax_code : Option TaxCode
  is_summary : Bool
  is_active : Bool
deriving DecidableEq, Repr

/-- `Account::allows_posting`. -/
def Account.allows_posting (a : Account) : Bool :=
  a.is_active && !a.is_summary

inductive PeriodState
  | Open
  | SoftClosed
  | Closed
deriving DecidableEq, Repr

inductive PeriodAction
  | SoftClose
  | Close
  | ReopenSoft
  | ReopenFull
deriving DecidableEq, Repr

structure PeriodRef where
  fiscal_year : ℤ
  period : ℕ
deriving DecidableEq, Repr

structure PeriodLockInfo where
  period : PeriodRef
  action : PeriodAction
  approval_reference : Option String
  locked_at : ℕ
  locked_by : String
deriving DecidableEq, Repr

inductive LedgerType
  | General
  | AccountsPayable
  | AccountsReceivable
  | Cash
  | SubLedger
deriving DecidableEq, Repr

structure Journal where
  id : String
  company_id : String
  ledger_type : LedgerType
  period_state : PeriodState
  latest_lock : Option PeriodLockInfo
  lock_history : List PeriodLockInfo
deriving DecidableEq, Repr

structure FiscalCalendar where
  periods_per_year : ℕ
  opening_month : ℕ
deriving DecidableEq, Repr

structure Company where
  id : String
  name : String
  base_currency : Currency
  fiscal_calendar : FiscalCalendar
  metadata : Option String
deriving DecidableEq, Repr

inductive Role
  | Admin
  | Accountant
  | Reviewer
  | Auditor
  | ServiceAccount
deriving DecidableEq, Repr

structure TenantContext where
  tenant_id : String
  user_id : String
  roles : List Role
  locale : Option String
deriving DecidableEq, Repr

structure AuditEvent where
  id : String
  company_id : String
  entity_id : String
  actor : String
  occurred_at : ℕ
  description : String
deriving DecidableEq, Repr

inductive LedgerError
  | NotFound (resource : String)
  | Rejected (reason : String)
  | Validation (reason : String)
  | Internal (reason : String)
deriving DecidableEq, Repr

/-! ## Pure ledger invariants -/

/-- `JournalEntry::is_balanced`: fold functional amounts by side and compare. -/
def JournalEntry.is_balanced (e : JournalEntry) : Bool :=
  let p := e.lines.foldl
    (fun (dc : ℤ × ℤ) line =>
      match line.side with
      | .Debit => (dc.1 + line.functional_amount_minor, dc.2)
      | .Credit => (dc.1, dc.2 + line.functional_amount_minor))
    ((0 : ℤ), (0 : ℤ))
  decide (p.1 = p.2)

/-- `JournalLine::has_currency_provenance` from `codex-ledger/src/lib.rs`. -/
def JournalLine.has_currency_provenance (l : JournalLine) : Bool :=
  if l.currency = l.functional_currency then
    l.exchange_rate.isNone && decide (l.amount_minor = l.functional_amount_minor)
  else
    match l.exchange_rate with
    | some rate =>
      if rate.base ≠ l.currency ∨ rate.quote ≠ l.functional_currency then false
      else
        decide (|roundAway ((l.amount_minor : ℚ) * rate.rate) - l.functional_amount_minor| ≤ 2)
          && rate.source.isSome
    | none => false

/-- The per-line loop of `validate_entry` in `codex-ledger/src/memory.rs`. -/
def validate_lines : List JournalLine → Except LedgerError Unit
  | [] => .ok ()
  | line :: rest =>
    if line.currency = line.functional_currency then
      if line.exchange_rate.isSome || decide (line.amount_minor ≠ line.functional_amount_minor) then
        .error (.Validation "Currency amounts must include provenance")
      else validate_lines rest
    else
      match line.exchange_rate with
      | none => .error (.Validation "Currency amounts must include provenance")
      | some rate =>
        if rate.base ≠ line.currency ∨ rate.quote ≠ line.functional_currency ∨ rate.source = none then
          .error (.Validation "Currency amounts must include provenance")
        else if |roundAway ((line.amount_minor : ℚ) * rate.rate) - line.functional_amount_minor| > 2 then
          .error (.Validation "Currency amounts must include provenance")
        else validate_lines rest

/-- `validate_entry` from `codex-ledger/src/memory.rs`. -/
def validate_entry (entry : JournalEntry) : Except LedgerError Unit :=
  if entry.is_balanced then validate_lines entry.lines
  else .error (.Validation "Journal entry must balance")

/-! ## Ledger service state (`codex-ledger/src/memory.rs`) -/

structure State where
  company_seq : ℕ
  companies : List (String × Company)
  accounts : List (String × Account)
  account_codes : List (String × List (String × String))
  journals : List ((String × String) × Journal)
  periods : List ((String × String × ℤ × ℕ) × PeriodState)
  entries : List (String × JournalEntry)
  entry_companies : List (String × String)
  audit_events : List AuditEvent
  audit_seq : ℕ
deriving DecidableEq

/-- `InMemoryLedgerService::record_audit_event`. -/
def record_audit_event (s : State) (company_id entity_id : String)
    (actor : Option String) (description : String) (now : ℕ) : State :=
  let seq := s.audit_seq + 1
  { s with
    audit_seq := seq
    audit_events := s.audit_events ++
      [{ id := "audit-" ++ toString seq
         company_id := company_id
         entity_id := entity_id
         actor := actor.getD "system"
         occurred_at := now
         description := description }] }

inductive PostingMode
  | DryRun
  | Commit
deriving DecidableEq, Repr

structure PostEntryRequest where
  entry : JournalEntry
  tenant : TenantContext
  mode : PostingMode
deriving DecidableEq

/-- The account-resolution loop at the head of `post_entry`: resolve every
line's account, require a single company and posting eligibility. -/
def resolve_lines (accounts : List (String × Account)) :
    List JournalLine → Option String → Except LedgerError (Option String)
  | [], acc => .ok acc
  | line :: rest, acc =>
    match mfind accounts line.account_id with
    | none => .error (.NotFound ("account " ++ line.account_id))
    | some account =>
      match acc with
      | some existing =>
        if existing ≠ account.company_id then
          .error (.Validation "all journal entry lines must belong to the same company")
        else if ¬ account.allows_posting then
          .error (.Validation "cannot post to summary or inactive account")
        else resolve_lines accounts rest (some existing)
      | none =>
        if ¬ account.allows_posting then
          .error (.Validation "cannot post to summary or inactive account")
        else resolve_lines accounts rest (some account.company_id)

/-- `InMemoryLedgerService::post_entry`.  Returns the state after the call
together with the result; every error path leaves the state untouched. -/
def post_entry (s : State) (req : PostEntryRequest) (now : ℕ) :
    State × Except LedgerError JournalEntry :=
  if req.entry.lines.isEmpty then
    (s, .error (.Validation "journal entry must contain at least one line"))
  else
    match resolve_lines s.accounts req.entry.lines none with
    | .error e => (s, .error e)
    | .ok none => (s, .error (.Validation "journal entry must contain at least one line"))
    | .ok (some company_id) =>
      match mfind s.journals (company_id, req.entry.journal_id) with
      | none => (s, .error (.NotFound ("journal " ++ req.entry.journal_id)))
      | some journal =>
        match journal.period_state with
        | .SoftClosed => (s, .error (.Rejected "soft-close prevents posting without override"))
        | .Closed => (s, .error (.Rejected "period closed"))
        | .Open =>
          match validate_entry req.entry with
          | .error e => (s, .error e)
          | .ok _ =>
            let entry := { req.entry with
              reverses_entry_id := none
              reversed_by_entry_id := none
              reconciliation_status := .Unreconciled }
            match req.mode with
            | .DryRun => (s, .ok { entry with status := .Proposed })
            | .Commit =>
              let entry := { entry with status := .Posted }
              let s1 := { s with
                entries := minsert s.entries entry.id entry
                entry_companies := minsert s.entry_companies entry.id company_id }
              let s2 := record_audit_event s1 company_id entry.id
                (some req.tenant.user_id) ("Posted entry " ++ entry.journal_id) now
              (s2, .ok entry)

structure LockPeriodRequest where
  journal_id : String
  period : PeriodRef
  action : PeriodAction
  approval_reference : Option String
  tenant : TenantContext
deriving DecidableEq

/-- Audit description for a period lock.  The Rust code renders the period,
state and approval with `Debug` formatting; the exact text is not load-bearing
for any claim, only that exactly one event is recorded. -/
def lock_audit_description (period : PeriodRef) (st : PeriodState)
    (approval : Option String) : String :=
  "Journal period " ++ toString period.fiscal_year ++ "/" ++ toString period.period ++
    " set to " ++
    (match st with
     | .Open => "Open"
     | .SoftClosed => "SoftClosed"
     | .Closed => "Closed") ++
    " (approval " ++ (match approval with | some a => a | none => "None") ++ ")"

/-- `InMemoryLedgerService::lock_period`: maps the action to a target state
unconditionally, appends to the lock history and records one audit event. -/
def lock_period (s : State) (req : LockPeriodRequest) (now : ℕ) :
    State × Except LedgerError Journal :=
  match mfind s.journals (req.tenant.tenant_id, req.journal_id) with
  | none => (s, .error (.NotFound ("journal " ++ req.journal_id)))
  | some journal =>
    let period_state : PeriodState :=
      match req.action with
      | .SoftClose => .SoftClosed
      | .Close => .Closed
      | .ReopenSoft => .SoftClosed
      | .ReopenFull => .Open
    let lock_record : PeriodLockInfo :=
      { period := req.period
        action := req.action
        approval_reference := req.approval_reference
        locked_at := now
        locked_by := req.tenant.user_id }
    let updated : Journal :=
      { journal with
        period_state := period_state
        lock_history := journal.lock_history ++ [lock_record]
        latest_lock := some lock_record }
    let s1 := { s with
      journals := minsert s.journals (req.tenant.tenant_id, req.journal_id) updated
      periods := minsert s.periods
        (req.tenant.tenant_id, req.journal_id, req.period.fiscal_year, req.period.period)
        period_state }
    let s2 := record_audit_event s1 req.tenant.tenant_id req.journal_id
      (some req.tenant.user_id)
      (lock_audit_description req.period period_state req.approval_reference) now
    (s2, .ok updated)

structure ReverseEntryRequest where
  entry_id : String
  reason : String
  tenant : TenantContext
deriving DecidableEq

/-- `PostingSide` flip used by the reversal engine. -/
def flipSide : PostingSide → PostingSide
  | .Debit => .Credit
  | .Credit => .Debit

/-- Id of a reversing entry: `format!("{original_id}-rev-{sequence}")`. -/
def rev_id (original_id : String) (sequence : ℕ) : String :=
  original_id ++ "-rev-" ++ toString sequence

/-- `InMemoryLedgerService::reverse_entry`. -/
def reverse_entry (s : State) (req : ReverseEntryRequest) (now : ℕ) :
    State × Except LedgerError JournalEntry :=
  let sequence := s.entries.length + 1
  match mfind s.entries req.entry_id with
  | none => (s, .error (.NotFound ("entry " ++ req.entry_id)))
  | some entry =>
    match mfind s.entry_companies req.entry_id with
    | none => (s, .error (.Internal ("missing company mapping for entry " ++ req.entry_id)))
    | some company_id =>
      if entry.status ≠ .Posted then
        (s, .error (.Rejected "entry is not posted"))
      else if entry.reversed_by_entry_id.isSome then
        (s, .error (.Rejected "entry already reversed"))
      else
        let original_id := entry.id
        let new_entry_id := rev_id original_id sequence
        let reversing_lines := entry.lines.map (fun line =>
          { line with
            id := line.id ++ "-rev"
            side := flipSide line.side })
        let reversal_memo := "Reversal of " ++ original_id ++ ": " ++ req.reason
        let reversing_entry : JournalEntry :=
          { id := new_entry_id
            journal_id := entry.journal_id
            status := .Posted
            reconciliation_status := .Unreconciled
            lines := reversing_lines
            origin := .Adjustment
            memo := some reversal_memo
            reverses_entry_id := some original_id
            reversed_by_entry_id := none }
        let updated_original := { entry with reversed_by_entry_id := some new_entry_id }
        let s1 := { s with
          entries := minsert (minsert s.entries req.entry_id updated_original)
            new_entry_id reversing_entry
          entry_companies := minsert s.entry_companies new_entry_id company_id }
        let s2 := record_audit_event s1 company_id original_id
          (some req.tenant.user_id) ("Reversal requested: " ++ req.reason) now
        let s3 := record_audit_event s2 company_id new_entry_id
          (some req.tenant.user_id) reversal_memo now
        (s3, .ok reversing_entry)

structure AuditTrailFilter where
  entity_id : Option String
  limit : Option ℕ
  cursor : Option String
  tenant : TenantContext
deriving DecidableEq

/-- Company- and entity-filtering stage of `list_audit_trail`. -/
def audit_base (s : State) (f : AuditTrailFilter) : List AuditEvent :=
  let events := s.audit_events.filter (fun e => decide (e.company_id = f.tenant.tenant_id))
  match f.entity_id with
  | some entity => events.filter (fun e => decide (e.entity_id = entity))
  | none => events

/-- Cursor stage of `list_audit_trail`: drop everything up to and including
the event whose id matches the cursor, if any. -/
def apply_cursor (cursor : Option String) (events : List AuditEvent) : List AuditEvent :=
  match cursor with
  | some cur =>
    match events.findIdx? (fun e => decide (e.id = cur)) with
    | some pos => events.drop (pos + 1)
    | none => events
  | none => events

/-- Limit stage of `list_audit_trail`: truncate when longer than the limit. -/
def apply_limit (limit : Option ℕ) (events : List AuditEvent) : List AuditEvent :=
  match limit with
  | some lim => if events.length > lim then events.take lim else events
  | none => events

/-- `InMemoryLedgerService::list_audit_trail`. -/
def list_audit_trail (s : State) (f : AuditTrailFilter) :
    Except LedgerError (List AuditEvent) :=
  .ok (apply_limit f.limit (apply_cursor f.cursor (audit_base s f)))

/-! ## Reconciliation engine (`codex-reconcile/src/lib.rs`) -/

inductive ReconcileError
  | SessionNotFound (id : String)
  | CandidateNotFound (id : String)
  | InvalidTransition (reason : String)
  | Storage (reason : String)
deriving DecidableEq, Repr

inductive CandidateStatus
  | Pending
  | Accepted
  | PartiallyAccepted
  | Rejected
  | WrittenOff
deriving DecidableEq, Repr

inductive SessionStatus
  | Open
  | PendingPartial
  | Closed
deriving DecidableEq, Repr

structure MatchCandidate where
  id : String
  transaction_id : String
  journal_entry_id : String
  proposed_at : ℕ
  score : ℚ
  status : CandidateStatus
  group_id : Option String
  write_off_reason : Option String
deriving DecidableEq, Repr

structure ReconciliationSession where
  id : String
  company_id : String
  status : SessionStatus
  opened_at : ℕ
  candidates : List MatchCandidate
deriving DecidableEq, Repr

/-- The `matches!(…, Pending | PartiallyAccepted)` test used by `accept`. -/
def isPendingOrPartial : CandidateStatus → Bool
  | .Pending => true
  | .PartiallyAccepted => true
  | _ => false

/-- `ReconciliationSession::ensure_mutable`. -/
def ReconciliationSession.ensure_mutable (s : ReconciliationSession) :
    Except ReconcileError Unit :=
  if s.status = .Closed then
    .error (.InvalidTransition ("session " ++ s.id ++ " is closed"))
  else .ok ()

/-- `ReconciliationSession::add_candidate`. -/
def ReconciliationSession.add_candidate (s : ReconciliationSession)
    (candidate : MatchCandidate) : ReconciliationSession × Except ReconcileError Unit :=
  match s.ensure_mutable with
  | .error e => (s, .error e)
  | .ok _ => ({ s with candidates := s.candidates ++ [candidate] }, .ok ())

/-- The candidate loop of `ReconciliationSession::accept`.  Returns the
(partially) mutated candidate list, the last accepted clone, and the error at
which the Rust loop returned early, if any; elements after an early return are
untouched, exactly as with the `&mut self` iteration in the source. -/
def accept_loop (cid : String) :
    List MatchCandidate → List MatchCandidate × Option MatchCandidate × Option ReconcileError
  | [] => ([], none, none)
  | c :: rest =>
    if c.id = cid then
      if isPendingOrPartial c.status then
        let c' := { c with status := .Accepted, write_off_reason := none }
        let r := accept_loop cid rest
        (c' :: r.1, some (r.2.1.getD c'), r.2.2)
      else
        (c :: rest, none, some (.InvalidTransition ("candidate " ++ cid ++ " is not pending")))
    else if isPendingOrPartial c.status then
      let c' := { c with status := .Rejected }
      let r := accept_loop cid rest
      (c' :: r.1, r.2.1, r.2.2)
    else
      let r := accept_loop cid rest
      (c :: r.1, r.2.1, r.2.2)

/-- `ReconciliationSession::accept`: the mutated session together with the
result.  On an error the session keeps the mutations made before the early
return, mirroring the source's in-place iteration. -/
def ReconciliationSession.accept (s : ReconciliationSession) (cid : String) :
    ReconciliationSession × Except ReconcileError MatchCandidate :=
  match s.ensure_mutable with
  | .error e => (s, .error e)
  | .ok _ =>
    match accept_loop cid s.candidates with
    | (cands, _, some e) => ({ s with candidates := cands }, .error e)
    | (cands, none, none) => ({ s with candidates := cands }, .error (.CandidateNotFound cid))
    | (cands, some a, none) =>
      ({ s with candidates := cands, status := .Closed }, .ok a)

/-- The find-and-mutate step of `ReconciliationSession::reject`. -/
def reject_loop (cid : String) :
    List MatchCandidate → List MatchCandidate × Except ReconcileError MatchCandidate
  | [] => ([], .error (.CandidateNotFound cid))
  | c :: rest =>
    if c.id = cid then
      if c.status ≠ .Pending then
        (c :: rest, .error (.InvalidTransition ("candidate " ++ cid ++ " is not pending")))
      else
        let c' := { c with status := .Rejected }
        (c' :: rest, .ok c')
    else
      let r := reject_loop cid rest
      (c :: r.1, r.2)

/-- `ReconciliationSession::reject`: session status is left unchanged. -/
def ReconciliationSession.reject (s : ReconciliationSession) (cid : String) :
    ReconciliationSession × Except ReconcileError MatchCandidate :=
  match s.ensure_mutable with
  | .error e => (s, .error e)
  | .ok _ =>
    let r := reject_loop cid s.candidates
    ({ s with candidates := r.1 }, r.2)

/-- The candidate loop of `ReconciliationSession::partial_accept`: candidates
whose id is in the supplied list must belong to the group and be pending; ids
with no matching candidate are skipped by the loop. -/
def partial_loop (gid : String) (ids : List String) :
    List MatchCandidate → List MatchCandidate × List MatchCandidate × Option ReconcileError
  | [] => ([], [], none)
  | c :: rest =>
    if c.id ∈ ids then
      if c.group_id ≠ some gid then
        (c :: rest, [],
          some (.InvalidTransition ("candidate " ++ c.id ++ " does not belong to group " ++ gid)))
      else if c.status ≠ .Pending then
        (c :: rest, [],
          some (.InvalidTransition ("candidate " ++ c.id ++ " is not pending")))
      else
        let c' := { c with status := .PartiallyAccepted }
        let r := partial_loop gid ids rest
        (c' :: r.1, c' :: r.2.1, r.2.2)
    else
      let r := partial_loop gid ids rest
      (c :: r.1, r.2.1, r.2.2)

/-- `ReconciliationSession::partial_accept`. -/
def ReconciliationSession.partial_accept (s : ReconciliationSession)
    (gid : String) (ids : List String) :
    ReconciliationSession × Except ReconcileError (List MatchCandidate) :=
  match s.ensure_mutable with
  | .error e => (s, .error e)
  | .ok _ =>
    if ids.isEmpty then
      (s, .error (.InvalidTransition "partial accept requires at least one candidate"))
    else
      match partial_loop gid ids s.candidates with
      | (cands, _, some e) => ({ s with candidates := cands }, .error e)
      | (cands, updated, none) =>
        if updated.isEmpty then
          ({ s with candidates := cands },
            .error (.InvalidTransition ("no pending candidates were found for group " ++ gid)))
        else
          ({ s with candidates := cands, status := .PendingPartial }, .ok updated)

/-- The find-and-mutate step of `ReconciliationSession::write_off`.  The Rust
error text interpolates the candidate status with `Debug` formatting; the
exact message is not load-bearing for any claim. -/
def write_off_loop (cid reason : String) :
    List MatchCandidate → List MatchCandidate × Except ReconcileError MatchCandidate
  | [] => ([], .error (.CandidateNotFound cid))
  | c :: rest =>
    if c.id = cid then
      if c.status = .Pending ∨ c.status = .PartiallyAccepted ∨ c.status = .Rejected then
        let c' := { c with status := .WrittenOff, write_off_reason := some reason }
        (c' :: rest, .ok c')
      else
        (c :: rest, .error (.InvalidTransition ("candidate " ++ cid ++ " cannot be written off")))
    else
      let r := write_off_loop cid reason rest
      (c :: r.1, r.2)

/-- `ReconciliationSession::write_off`: on success the session moves to
`PendingPartial`. -/
def ReconciliationSession.write_off (s : ReconciliationSession)
    (cid reason : String) : ReconciliationSession × Except ReconcileError MatchCandidate :=
  match s.ensure_mutable with
  | .error e => (s, .error e)
  | .ok _ =>
    match write_off_loop cid reason s.candidates with
    | (cands, .ok c) => ({ s with candidates := cands, status := .PendingPartial }, .ok c)
    | (cands, .error e) => ({ s with candidates := cands }, .error e)

/-- `ReconciliationSession::reopen`: a no-op on an open session, otherwise
every candidate returns to `Pending` with reasons cleared. -/
def ReconciliationSession.reopen (s : ReconciliationSession) :
    ReconciliationSession × Except ReconcileError Unit :=
  if s.status = .Open then (s, .ok ())
  else
    ({ s with
        status := .Open
        candidates := s.candidates.map
          (fun c => { c with status := .Pending, write_off_reason := none }) },
      .ok ())

/-! ## Reconciliation store and service -/

/-- The in-memory session store: session id to session. -/
abbrev ReconStore := List (String × ReconciliationSession)

/-- `InMemoryReconciliationStore::get_session`. -/
def get_session (store : ReconStore) (sid : String) :
    Except ReconcileError ReconciliationSession :=
  match mfind store sid with
  | some s => .ok s
  | none => .error (.SessionNotFound sid)

/-- `InMemoryReconciliationStore::save_session`. -/
def save_session (store : ReconStore) (s : ReconciliationSession) :
    Except ReconcileError ReconStore :=
  if (mfind store s.id).isSome then .ok (minsert store s.id s)
  else .error (.SessionNotFound s.id)

/-- `InMemoryReconciliationService::modify_session`: fetch the session, run
the mutator on the fetched copy, and write it back only on success — on any
error the stored session is unchanged even though the copy was mutated. -/
def modify_session {T : Type} (store : ReconStore) (sid : String)
    (mutator : ReconciliationSession → ReconciliationSession × Except ReconcileError T) :
    ReconStore × Except ReconcileError (ReconciliationSession × T) :=
  match get_session store sid with
  | .error e => (store, .error e)
  | .ok sess =>
    let r := mutator sess
    match r.2 with
    | .error e => (store, .error e)
    | .ok t =>
      match save_session store r.1 with
      | .error e => (store, .error e)
      | .ok store' => (store', .ok (r.1, t))

structure MatchProposal where
  transaction_id : String
  journal_entry_id : String
  amount_delta_minor : ℤ
  date_delta_days : ℤ
  transaction_description : String
  journal_description : String
  group_id : Option String
deriving DecidableEq, Repr

/-- `InMemoryReconciliationService::add_candidate`; the fresh UUID and clock
are threaded as `cid` and `now`, the scoring strategy as a function. -/
def svc_add_candidate (scoring : MatchProposal → ℚ) (store : ReconStore)
    (sid : String) (proposal : MatchProposal) (cid : String) (now : ℕ) :
    ReconStore × Except ReconcileError MatchCandidate :=
  let candidate : MatchCandidate :=
    { id := cid
      transaction_id := proposal.transaction_id
      journal_entry_id := proposal.journal_entry_id
      proposed_at := now
      score := scoring proposal
      status := .Pending
      group_id := proposal.group_id
      write_off_reason := none }
  match modify_session store sid (fun s => s.add_candidate candidate) with
  | (st, .error e) => (st, .error e)
  | (st, .ok _) => (st, .ok candidate)

/-- `InMemoryReconciliationService::accept`. -/
def svc_accept (store : ReconStore) (sid cid : String) :
    ReconStore × Except ReconcileError MatchCandidate :=
  match modify_session store sid (fun s => s.accept cid) with
  | (st, .error e) => (st, .error e)
  | (st, .ok (_, c)) => (st, .ok c)

/-- `InMemoryReconciliationService::reject`. -/
def svc_reject (store : ReconStore) (sid cid : String) :
    ReconStore × Except ReconcileError MatchCandidate :=
  match modify_session store sid (fun s => s.reject cid) with
  | (st, .error e) => (st, .error e)
  | (st, .ok (_, c)) => (st, .ok c)

/-- `InMemoryReconciliationService::accept_partial`. -/
def svc_partial_accept (store : ReconStore) (sid gid : String)
    (ids : List String) : ReconStore × Except ReconcileError (List MatchCandidate) :=
  match modify_session store sid (fun s => s.partial_accept gid ids) with
  | (st, .error e) => (st, .error e)
  | (st, .ok (_, cs)) => (st, .ok cs)

/-- `InMemoryReconciliationService::write_off`. -/
def svc_write_off (store : ReconStore) (sid cid reason : String) :
    ReconStore × Except ReconcileError MatchCandidate :=
  match modify_session store sid (fun s => s.write_off cid reason) with
  | (st, .error e) => (st, .error e)
  | (st, .ok (_, c)) => (st, .ok c)

/-- `InMemoryReconciliationService::reopen`. -/
def svc_reopen (store : ReconStore) (sid : String) :
    ReconStore × Except ReconcileError ReconciliationSession :=
  match modify_session store sid ReconciliationSession.reopen with
  | (st, .error e) => (st, .error e)
  | (st, .ok (sess, _)) => (st, .ok sess)

/-! ## Scoring strategy -/

/-- `f32::EPSILON` as an exact rational. -/
def epsf32 : ℚ := 1 / 8388608

/-- ASCII lower-casing of one character (`char::to_ascii_lowercase`). -/
def asciiLower (c : Char) : Char :=
  if 'A' ≤ c ∧ c ≤ 'Z' then Char.ofNat (c.toNat + 32) else c

/-- Case-folded whitespace tokens of a description
(`split_whitespace().map(str::to_ascii_lowercase).collect::<BTreeSet<_>>()`). -/
def tokenize (s : String) : Finset String :=
  (((s.split Char.isWhitespace).filter (fun t => ¬ t.isEmpty)).map
    (fun t => String.map asciiLower t)).toFinset

/-- `description_similarity`: Jaccard overlap of the token sets, clamped. -/
def description_similarity (left right : String) : ℚ :=
  let left_tokens := tokenize left
  let right_tokens := tokenize right
  if left_tokens = ∅ ∨ right_tokens = ∅ then 0
  else
    let inter : ℚ := ((left_tokens ∩ right_tokens).card : ℚ)
    let uni : ℚ := ((left_tokens ∪ right_tokens).card : ℚ)
    if uni ≤ epsf32 then 0 else clampQ (inter / uni) 0 1

structure WeightedScoringStrategy where
  amount_weight : ℚ
  date_weight : ℚ
  description_weight : ℚ
  amount_tolerance_minor : ℤ
  date_tolerance_days : ℤ
deriving DecidableEq, Repr

/-- `WeightedScoringStrategy::new`: tolerances are clamped to at least 1. -/
def WeightedScoringStrategy.new (aw dw sw : ℚ) (atol dtol : ℤ) :
    WeightedScoringStrategy :=
  { amount_weight := aw
    date_weight := dw
    description_weight := sw
    amount_tolerance_minor := max atol 1
    date_tolerance_days := max dtol 1 }

/-- `WeightedScoringStrategy::default()`: weights 0.45/0.35/0.20, tolerances
5000 minor units and 7 days. -/
def defaultWeighted : WeightedScoringStrategy :=
  WeightedScoringStrategy.new (45/100) (35/100) (20/100) 5000 7

/-- `WeightedScoringStrategy::normalize_amount`. -/
def WeightedScoringStrategy.normalize_amount (w : WeightedScoringStrategy)
    (delta : ℤ) : ℚ :=
  clampQ (1 - (|delta| : ℚ) / (w.amount_tolerance_minor : ℚ)) 0 1

/-- `WeightedScoringStrategy::normalize_date`. -/
def WeightedScoringStrategy.normalize_date (w : WeightedScoringStrategy)
    (delta : ℤ) : ℚ :=
  clampQ (1 - (|delta| : ℚ) / (w.date_tolerance_days : ℚ)) 0 1

/-- `WeightedScoringStrategy::score`. -/
def WeightedScoringStrategy.score (w : WeightedScoringStrategy)
    (p : MatchProposal) : ℚ :=
  let total_weight := w.amount_weight + w.date_weight + w.description_weight
  if total_weight ≤ epsf32 then 0
  else
    let amount_component := w.normalize_amount p.amount_delta_minor
    let date_component := w.normalize_date p.date_delta_days
    let description_component :=
      description_similarity p.transaction_description p.journal_description
    clampQ
      ((amount_component * w.amount_weight + date_component * w.date_weight +
          description_component * w.description_weight) / total_weight)
      0 1

/-! ## Specification-side predicates -/

/-- The per-line currency-provenance condition exactly as the specification
words it, to be compared against `JournalLine.has_currency_provenance` and the
inline checks of `validate_entry`. -/
def specLineProvenance (l : JournalLine) : Prop :=
  if l.currency = l.functional_currency then
    l.exchange_rate = none ∧ l.amount_minor = l.functional_amount_minor
  else
    ∃ r, l.exchange_rate = some r ∧ r.base = l.currency ∧
      r.quote = l.functional_currency ∧ r.source ≠ none ∧
      |roundAway ((l.amount_minor : ℚ) * r.rate) - l.functional_amount_minor| ≤ 2

/-! ## Concrete fixtures for witnesses and counterexamples -/

def wUsd : Currency := ⟨"USD", 2⟩

def wCompany : Company := ⟨"co-1", "Demo", wUsd, ⟨12, 1⟩, none⟩

def wCashAcct : Account :=
  ⟨"cash", "co-1", "1000", "Cash", .Asset, none, .FunctionalOnly, none, false, true⟩

def wRevenueAcct : Account :=
  ⟨"revenue", "co-1", "4000", "Revenue", .Revenue, none, .FunctionalOnly, none, false, true⟩

def mkJournal (ps : PeriodState) : Journal :=
  ⟨"jnl-gl", "co-1", .General, ps, none, []⟩

/-- A one-company ledger state with two postable accounts and the seeded
general-ledger journal in the given period state. -/
def mkLedgerState (ps : PeriodState) : State :=
  { company_seq := 1
    companies := [("co-1", wCompany)]
    accounts := [("cash", wCashAcct), ("revenue", wRevenueAcct)]
    account_codes := [("co-1", [("1000", "cash"), ("4000", "revenue")])]
    journals := [(("co-1", "jnl-gl"), mkJournal ps)]
    periods := []
    entries := []
    entry_companies := []
    audit_events := []
    audit_seq := 0 }

def wTenant : TenantContext := ⟨"co-1", "tester", [.Admin], none⟩

def wLineDebit : JournalLine :=
  ⟨"ln-1", "cash", .Debit, 10000, wUsd, 10000, wUsd, none, none, none⟩

def wLineCredit : JournalLine :=
  ⟨"ln-2", "revenue", .Credit, 10000, wUsd, 10000, wUsd, none, none, none⟩

def wLineCreditShort : JournalLine :=
  ⟨"ln-2", "revenue", .Credit, 9000, wUsd, 9000, wUsd, none, none, none⟩

def wEntryBal : JournalEntry :=
  ⟨"je-1", "jnl-gl", .Draft, .Unreconciled, [wLineDebit, wLineCredit], .Manual, none, none, none⟩

def wEntryUnbal : JournalEntry :=
  ⟨"je-2", "jnl-gl", .Draft, .Unreconciled, [wLineDebit, wLineCreditShort], .Manual, none, none, none⟩

/-- State after committing the balanced entry into the open-period fixture. -/
def wPostedState : State :=
  (post_entry (mkLedgerState .Open) ⟨wEntryBal, wTenant, .Commit⟩ 0).1

def wPostedEntry : JournalEntry := { wEntryBal with status := .Posted }

/-- Audit fixture: two events for tenant co-1, one for co-2, sharing an
entity id across tenants. -/
def wAuditState : State :=
  { company_seq := 2
    companies := []
    accounts := []
    account_codes := []
    journals := []
    periods := []
    entries := []
    entry_companies := []
    audit_events :=
      [ ⟨"audit-1", "co-1", "je-1", "alice", 0, "Posted entry jnl-gl"⟩
      , ⟨"audit-2", "co-1", "je-9", "alice", 1, "Posted entry jnl-gl"⟩
      , ⟨"audit-3", "co-2", "je-1", "bob", 2, "Posted entry jnl-gl"⟩ ]
    audit_seq := 3 }

def wCand1 : MatchCandidate :=
  ⟨"c1", "txn-1", "je-1", 0, 1, .Pending, some "g1", none⟩

def wCand2 : MatchCandidate :=
  ⟨"c2", "txn-2", "je-2", 0, 1, .Pending, some "g1", none⟩

def wSession : ReconciliationSession := ⟨"s1", "co-1", .Open, 0, [wCand1, wCand2]⟩

def wStore : ReconStore := [("s1", wSession)]

def wProposal : MatchProposal := ⟨"txn-1", "je-1", 0, 0, "rent may", "rent may", some "g1"⟩

def wProposalFar : MatchProposal := ⟨"txn-1", "je-1", 2500, 0, "rent may", "rent may", some "g1"⟩

def wEur : Currency := ⟨"EUR", 2⟩

def wLineDebitEurNoRate : JournalLine :=
  ⟨"ln-1", "cash", .Debit, 9300, wEur, 10000, wUsd, none, none, none⟩

/-- Balanced entry whose EUR line is missing its exchange-rate provenance. -/
def wEntryFxBad : JournalEntry :=
  ⟨"je-3", "jnl-gl", .Draft, .Unreconciled, [wLineDebitEurNoRate, wLineCredit], .Manual, none,
    none, none⟩

def wLockReq : LockPeriodRequest := ⟨"jnl-gl", ⟨2024, 1⟩, .ReopenFull, some "APR-1", wTenant⟩

/-! ## Derived forms of `lock_period`'s result (proof-layer shorthand) -/

/-- The unconditional action-to-state mapping of `lock_period`. -/
def lockTarget : PeriodAction → PeriodState
  | .SoftClose => .SoftClosed
  | .Close => .Closed
  | .ReopenSoft => .SoftClosed
  | .ReopenFull => .Open

/-- The `PeriodLockInfo` record appended by `lock_period`. -/
def lockInfo (r : LockPeriodRequest) (n : ℕ) : PeriodLockInfo :=
  ⟨r.period, r.action, r.approval_reference, n, r.tenant.user_id⟩

/-- The journal produced by a successful `lock_period`. -/
def lockUpdatedJournal (j : Journal) (r : LockPeriodRequest) (n : ℕ) : Journal :=
  { j with
    period_state := lockTarget r.action
    lock_history := j.lock_history ++ [lockInfo r n]
    latest_lock := some (lockInfo r n) }

/-- The reversing entry produced by a successful `reverse_entry`
(proof-layer shorthand for the record built inside the function). -/
def revEntry (entry : JournalEntry) (reason : String) (seq : ℕ) : JournalEntry :=
  { id := rev_id entry.id seq
    journal_id := entry.journal_id
    status := .Posted
    reconciliation_status := .Unreconciled
    lines := entry.lines.map (fun line =>
      { line with id := line.id ++ "-rev", side := flipSide line.side })
    origin := .Adjustment
    memo := some ("Reversal of " ++ entry.id ++ ": " ++ reason)
    reverses_entry_id := some entry.id
    reversed_by_entry_id := none }

/-- Per-candidate effect of a successful `accept` (proof-layer shorthand). -/
def acceptMapFn (cid : String) (d : MatchCandidate) : MatchCandidate :=
  if d.id = cid then { d with status := .Accepted, write_off_reason := none }
  else if isPendingOrPartial d.status then { d with status := .Rejected }
  else d

/-- Per-candidate effect of a successful `partial_accept`. -/
def partialMapFn (ids : List String) (c : MatchCandidate) : MatchCandidate :=
  if c.id ∈ ids then { c with status := .PartiallyAccepted } else c

/-! ## Helper lemmas: association-list maps -/

theorem mfind_minsert_self {κ α : Type} [DecidableEq κ] (m : List (κ × α)) (k : κ) (v : α) :
    mfind (minsert m k v) k = some v := by
  simp [mfind, minsert]

theorem mfind_filter_ne {κ α : Type} [DecidableEq κ] (k k' : κ) (h : k' ≠ k) :
    ∀ m : List (κ × α), mfind (m.filter fun p => decide (p.1 ≠ k)) k' = mfind m k'
  | [] => rfl
  | p :: rest => by
    by_cases hpk : p.1 = k
    · have hne : ¬ p.1 = k' := fun hh => h (hh ▸ hpk)
      rw [List.filter_cons, if_neg (by simp [hpk]), mfind_filter_ne k k' h rest]
      simp [mfind, hne]
    · rw [List.filter_cons, if_pos (by simp [hpk])]
      by_cases hpk' : p.1 = k'
      · simp [mfind, hpk']
      · calc mfind (p :: List.filter (fun q => decide (q.1 ≠ k)) rest) k'
              = mfind (List.filter (fun q => decide (q.1 ≠ k)) rest) k' := by
                simp [mfind, hpk']
          _ = mfind rest k' := mfind_filter_ne k k' h rest
          _ = mfind (p :: rest) k' := by simp [mfind, hpk']

theorem mfind_minsert_ne {κ α : Type} [DecidableEq κ] (m : List (κ × α)) (k k' : κ) (v : α)
    (h : k' ≠ k) : mfind (minsert m k v) k' = mfind m k' := by
  unfold minsert
  rw [mfind, if_neg (fun hh => h hh.symm), mfind_filter_ne k k' h]

/-! ## Helper lemmas: entry validation -/

theorem is_balanced_eq_of_lines {e1 e2 : JournalEntry} (h : e1.lines = e2.lines) :
    e1.is_balanced = e2.is_balanced := by
  unfold JournalEntry.is_balanced
  rw [h]

theorem validate_lines_cons (line : JournalLine) (rest : List JournalLine) :
    validate_lines (line :: rest) = .ok () ↔
      (line.has_currency_provenance = true ∧ validate_lines rest = .ok ()) := by
  simp only [validate_lines, JournalLine.has_currency_provenance]
  by_cases hc : line.currency = line.functional_currency
  · cases hrate : line.exchange_rate with
    | none =>
      by_cases ha : line.amount_minor = line.functional_amount_minor
      · simp [hc, hrate, ha]
      · simp [hc, hrate, ha]
    | some r => simp [hc, hrate]
  · cases hrate : line.exchange_rate with
    | none => simp [hc, hrate]
    | some r =>
      by_cases hbase : r.base = line.currency
      · by_cases hquote : r.quote = line.functional_currency
        · cases hsrc : r.source with
          | none => simp [hc, hrate, hbase, hquote, hsrc]
          | some src =>
            by_cases htol : |roundAway ((line.amount_minor : ℚ) * r.rate) -
                line.functional_amount_minor| ≤ 2
            · simp [hc, hrate, hbase, hquote, hsrc, htol, not_lt.mpr htol]
            · simp [hc, hrate, hbase, hquote, hsrc, htol, lt_of_not_le htol]
        · simp [hc, hrate, hquote]
      · simp [hc, hrate, hbase]

theorem validate_lines_ok_iff :
    ∀ l : List JournalLine,
      validate_lines l = .ok () ↔ ∀ line ∈ l, line.has_currency_provenance = true
  | [] => by simp [validate_lines]
  | line :: rest => by
    rw [validate_lines_cons]
    simp [validate_lines_ok_iff rest]

theorem validate_lines_cases :
    ∀ l : List JournalLine,
      validate_lines l = .ok () ∨
        validate_lines l = .error (.Validation "Currency amounts must include provenance")
  | [] => Or.inl rfl
  | line :: rest => by
    unfold validate_lines
    split
    · split
      · exact Or.inr rfl
      · exact validate_lines_cases rest
    · split
      · exact Or.inr rfl
      · split
        · exact Or.inr rfl
        · split
          · exact Or.inr rfl
          · exact validate_lines_cases rest

theorem validate_entry_ok_iff (e : JournalEntry) :
    validate_entry e = .ok () ↔
      (e.is_balanced = true ∧ ∀ line ∈ e.lines, line.has_currency_provenance = true) := by
  unfold validate_entry
  by_cases hb : e.is_balanced <;> simp [hb, validate_lines_ok_iff]

theorem validate_entry_unbalanced {e : JournalEntry} (hb : e.is_balanced = false) :
    validate_entry e = .error (.Validation "Journal entry must balance") := by
  unfold validate_entry
  simp [hb]

theorem has_provenance_iff_spec (l : JournalLine) :
    l.has_currency_provenance = true ↔ specLineProvenance l := by
  simp only [JournalLine.has_currency_provenance, specLineProvenance]
  by_cases hc : l.currency = l.functional_currency
  · cases hrate : l.exchange_rate with
    | none => simp [hc, hrate]
    | some r => simp [hc, hrate]
  · cases hrate : l.exchange_rate with
    | none => simp [hc, hrate]
    | some r =>
      by_cases hbase : r.base = l.currency
      · by_cases hquote : r.quote = l.functional_currency
        · cases hsrc : r.source with
          | none => simp [hc, hrate, hbase, hquote, hsrc]
          | some src =>
            by_cases htol : |roundAway ((l.amount_minor : ℚ) * r.rate) -
                l.functional_amount_minor| ≤ 2
            · simp [hc, hrate, hbase, hquote, hsrc, htol]
            · simp [hc, hrate, hbase, hquote, hsrc, htol]
        · simp [hc, hrate, hquote]
      · simp [hc, hrate, hbase]

/-! ## Helper lemmas: posting -/

theorem resolve_ok_ne_nil {accounts : List (String × Account)} {l : List JournalLine}
    {c : String} (h : resolve_lines accounts l none = .ok (some c)) : l ≠ [] := by
  intro hl
  rw [hl] at h
  exact absurd h (by simp [resolve_lines])

theorem isEmpty_false_of_ne_nil {α : Type} {l : List α} (h : l ≠ []) :
    l.isEmpty = false := by
  cases l with
  | nil => exact absurd rfl h
  | cons a t => rfl

theorem post_entry_softclosed {s : State} {req : PostEntryRequest} {now : ℕ}
    {cid : String} {journal : Journal}
    (hres : resolve_lines s.accounts req.entry.lines none = .ok (some cid))
    (hj : mfind s.journals (cid, req.entry.journal_id) = some journal)
    (hsc : journal.period_state = .SoftClosed) :
    post_entry s req now = (s, .error (.Rejected "soft-close prevents posting without override")) := by
  have hne := isEmpty_false_of_ne_nil (resolve_ok_ne_nil hres)
  simp only [post_entry, hne, Bool.false_eq_true, if_false, hres, hj, hsc]

theorem post_entry_closed {s : State} {req : PostEntryRequest} {now : ℕ}
    {cid : String} {journal : Journal}
    (hres : resolve_lines s.accounts req.entry.lines none = .ok (some cid))
    (hj : mfind s.journals (cid, req.entry.journal_id) = some journal)
    (hcl : journal.period_state = .Closed) :
    post_entry s req now = (s, .error (.Rejected "period closed")) := by
  have hne := isEmpty_false_of_ne_nil (resolve_ok_ne_nil hres)
  simp only [post_entry, hne, Bool.false_eq_true, if_false, hres, hj, hcl]

theorem post_entry_open_err {s : State} {req : PostEntryRequest} {now : ℕ}
    {cid : String} {journal : Journal} {e : LedgerError}
    (hres : resolve_lines s.accounts req.entry.lines none = .ok (some cid))
    (hj : mfind s.journals (cid, req.entry.journal_id) = some journal)
    (hopen : journal.period_state = .Open)
    (hval : validate_entry req.entry = .error e) :
    post_entry s req now = (s, .error e) := by
  have hne := isEmpty_false_of_ne_nil (resolve_ok_ne_nil hres)
  simp only [post_entry, hne, Bool.false_eq_true, if_false, hres, hj, hopen, hval]

theorem post_entry_open_ok {s : State} {req : PostEntryRequest} {now : ℕ}
    {cid : String} {journal : Journal}
    (hres : resolve_lines s.accounts req.entry.lines none = .ok (some cid))
    (hj : mfind s.journals (cid, req.entry.journal_id) = some journal)
    (hopen : journal.period_state = .Open)
    (hval : validate_entry req.entry = .ok ()) :
    ∃ e', (post_entry s req now).2 = .ok e' ∧ e'.lines = req.entry.lines := by
  have hne := isEmpty_false_of_ne_nil (resolve_ok_ne_nil hres)
  cases hm : req.mode
  · exact ⟨{ req.entry with
        reverses_entry_id := none
        reversed_by_entry_id := none
        reconciliation_status := .Unreconciled
        status := .Proposed },
      by simp only [post_entry, hne, Bool.false_eq_true, if_false, hres, hj, hopen, hval, hm],
      rfl⟩
  · exact ⟨{ req.entry with
        reverses_entry_id := none
        reversed_by_entry_id := none
        reconciliation_status := .Unreconciled
        status := .Posted },
      by simp only [post_entry, hne, Bool.false_eq_true, if_false, hres, hj, hopen, hval, hm],
      rfl⟩

theorem post_entry_ok_inv {s : State} {req : PostEntryRequest} {now : ℕ}
    {e : JournalEntry} (h : (post_entry s req now).2 = .ok e) :
    validate_entry req.entry = .ok () ∧ e.lines = req.entry.lines := by
  unfold post_entry at h
  split at h
  · simp at h
  · split at h
    · simp at h
    · simp at h
    · split at h
      · simp at h
      · split at h
        · simp at h
        · simp at h
        · split at h
          · simp at h
          · rename_i u hval
            cases u
            split at h
            · have hx := Except.ok.inj h
              subst hx
              exact ⟨hval, rfl⟩
            · have hx := Except.ok.inj h
              subst hx
              exact ⟨hval, rfl⟩

theorem validate_entry_cases (e : JournalEntry) :
    validate_entry e = .ok () ∨ ∃ msg, validate_entry e = .error (.Validation msg) := by
  unfold validate_entry
  by_cases hb : e.is_balanced
  · simp only [if_pos hb]
    rcases validate_lines_cases e.lines with h | h
    · exact Or.inl h
    · exact Or.inr ⟨_, h⟩
  · simp [hb]

theorem lock_period_found {s : State} {r : LockPeriodRequest} (n : ℕ) {j : Journal}
    (hj : mfind s.journals (r.tenant.tenant_id, r.journal_id) = some j) :
    lock_period s r n =
      (record_audit_event
        { s with
          journals := minsert s.journals (r.tenant.tenant_id, r.journal_id)
            (lockUpdatedJournal j r n)
          periods := minsert s.periods
            (r.tenant.tenant_id, r.journal_id, r.period.fiscal_year, r.period.period)
            (lockTarget r.action) }
        r.tenant.tenant_id r.journal_id (some r.tenant.user_id)
        (lock_audit_description r.period (lockTarget r.action) r.approval_reference) n,
      .ok (lockUpdatedJournal j r n)) := by
  simp only [lock_period, hj, lockUpdatedJournal, lockTarget, lockInfo]

/-! ## Claim theorems -/

/-- C1 (amended): a successfully posted or dry-run previewed entry is always
balanced, and an unbalanced entry never succeeds; when the entry's lines
resolve to postable same-company accounts and the journal's period is Open,
the failure is precisely the `Validation "Journal entry must balance"` error.
(As literally stated the claim fails: an earlier gate — a closed or
soft-closed period, a missing account or journal — reports its own error
class before balance validation runs; see the counterexample.) -/
theorem claim_C1 (s : State) (req : PostEntryRequest) (now : ℕ) :
    (∀ e, (post_entry s req now).2 = .ok e → e.is_balanced = true) ∧
    (req.entry.is_balanced = false → ∀ e, (post_entry s req now).2 ≠ .ok e) ∧
    (∀ cid journal, req.entry.is_balanced = false →
      resolve_lines s.accounts req.entry.lines none = .ok (some cid) →
      mfind s.journals (cid, req.entry.journal_id) = some journal →
      journal.period_state = .Open →
      (post_entry s req now).2 = .error (.Validation "Journal entry must balance")) := by
  refine ⟨?_, ?_, ?_⟩
  · intro e h
    obtain ⟨hval, hlines⟩ := post_entry_ok_inv h
    have hb := ((validate_entry_ok_iff req.entry).1 hval).1
    rw [is_balanced_eq_of_lines hlines]
    exact hb
  · intro hb e h
    obtain ⟨hval, -⟩ := post_entry_ok_inv h
    have := ((validate_entry_ok_iff req.entry).1 hval).1
    rw [hb] at this
    exact Bool.noConfusion this
  · intro cid journal hb hres hj hopen
    have herr := validate_entry_unbalanced hb
    rw [post_entry_open_err hres hj hopen herr]

/-- C1 counterexample: the unbalanced entry posted into a soft-closed journal
fails with `Rejected`, not with a `Validation` error, so "every unbalanced
entry always fails with a Validation error" is false as stated. -/
theorem claim_C1_cex :
    wEntryUnbal.is_balanced = false ∧
    (post_entry (mkLedgerState .SoftClosed) ⟨wEntryUnbal, wTenant, .Commit⟩ 0).2 =
      .error (.Rejected "soft-close prevents posting without override") ∧
    ∀ msg, (post_entry (mkLedgerState .SoftClosed) ⟨wEntryUnbal, wTenant, .Commit⟩ 0).2 ≠
      .error (.Validation msg) := by
  refine ⟨rfl, rfl, ?_⟩
  intro msg h
  rw [show (post_entry (mkLedgerState .SoftClosed) ⟨wEntryUnbal, wTenant, .Commit⟩ 0).2 =
      .error (.Rejected "soft-close prevents posting without override") from rfl] at h
  simp at h

/-- C1 witness: in the open-period fixture the unbalanced entry fails with
exactly the balance `Validation` error. -/
theorem claim_C1_witness :
    (post_entry (mkLedgerState .Open) ⟨wEntryUnbal, wTenant, .Commit⟩ 0).2 =
      .error (.Validation "Journal entry must balance") :=
  (claim_C1 (mkLedgerState .Open) ⟨wEntryUnbal, wTenant, .Commit⟩ 0).2.2
    "co-1" (mkJournal .Open) rfl rfl rfl rfl

/-- C2: `has_currency_provenance` agrees line-by-line with the specification's
provenance condition; `validate_entry` accepts exactly balanced entries whose
lines all satisfy it; a successful `post_entry` implies every line satisfied
it; and once the lines resolve and the period gate passes, an entry with a
violating line fails with a `Validation` error. -/
theorem claim_C2 (s : State) (req : PostEntryRequest) (now : ℕ) :
    (∀ line : JournalLine, line.has_currency_provenance = true ↔ specLineProvenance line) ∧
    (validate_entry req.entry = .ok () ↔
      (req.entry.is_balanced = true ∧ ∀ line ∈ req.entry.lines, specLineProvenance line)) ∧
    (∀ e, (post_entry s req now).2 = .ok e → ∀ line ∈ req.entry.lines, specLineProvenance line) ∧
    (∀ cid journal, resolve_lines s.accounts req.entry.lines none = .ok (some cid) →
      mfind s.journals (cid, req.entry.journal_id) = some journal →
      journal.period_state = .Open →
      (∃ line ∈ req.entry.lines, ¬ specLineProvenance line) →
      ∃ msg, (post_entry s req now).2 = .error (.Validation msg)) := by
  have hiff : validate_entry req.entry = .ok () ↔
      (req.entry.is_balanced = true ∧ ∀ line ∈ req.entry.lines, specLineProvenance line) := by
    rw [validate_entry_ok_iff]
    constructor
    · rintro ⟨hb, hl⟩
      exact ⟨hb, fun l hl' => (has_provenance_iff_spec l).1 (hl l hl')⟩
    · rintro ⟨hb, hl⟩
      exact ⟨hb, fun l hl' => (has_provenance_iff_spec l).2 (hl l hl')⟩
  refine ⟨has_provenance_iff_spec, hiff, ?_, ?_⟩
  · intro e h
    obtain ⟨hval, -⟩ := post_entry_ok_inv h
    exact (hiff.1 hval).2
  · intro cid journal hres hj hopen hbad
    rcases validate_entry_cases req.entry with hok | ⟨msg, herr⟩
    · obtain ⟨line, hin, hnspec⟩ := hbad
      exact absurd ((hiff.1 hok).2 line hin) hnspec
    · exact ⟨msg, by rw [post_entry_open_err hres hj hopen herr]⟩

/-- C2 witness: a balanced entry whose EUR line carries no exchange rate
fails posting in the open-period fixture with a `Validation` error. -/
theorem claim_C2_witness :
    ∃ msg, (post_entry (mkLedgerState .Open) ⟨wEntryFxBad, wTenant, .Commit⟩ 0).2 =
      .error (.Validation msg) := by
  refine (claim_C2 (mkLedgerState .Open) ⟨wEntryFxBad, wTenant, .Commit⟩ 0).2.2.2
    "co-1" (mkJournal .Open) rfl rfl rfl ⟨wLineDebitEurNoRate, ?_, ?_⟩
  · simp [wEntryFxBad]
  · simp only [specLineProvenance, wLineDebitEurNoRate]
    rw [if_neg (by decide)]
    rintro ⟨r, hr, -⟩
    exact Option.noConfusion hr

/-- C3: with the lines resolving to postable accounts of one company and the
journal found, posting into a SoftClosed period is Rejected with the
soft-close reason, into a Closed period Rejected with "period closed", an
Open period proceeds to success for a valid entry, and after `lock_period`
with `ReopenFull` on that journal a valid entry posts successfully again. -/
theorem claim_C3 (s : State) (req : PostEntryRequest) (lockReq : LockPeriodRequest)
    (now now2 now3 : ℕ) (cid : String) (journal : Journal)
    (hres : resolve_lines s.accounts req.entry.lines none = .ok (some cid))
    (hj : mfind s.journals (cid, req.entry.journal_id) = some journal) :
    ((journal.period_state = .SoftClosed →
        (post_entry s req now).2 = .error (.Rejected "soft-close prevents posting without override")) ∧
      (journal.period_state = .Closed →
        (post_entry s req now).2 = .error (.Rejected "period closed")) ∧
      (journal.period_state = .Open → validate_entry req.entry = .ok () →
        ∃ e, (post_entry s req now).2 = .ok e)) ∧
    (lockReq.tenant.tenant_id = cid → lockReq.journal_id = req.entry.journal_id →
      lockReq.action = .ReopenFull → validate_entry req.entry = .ok () →
      ∃ e, (post_entry (lock_period s lockReq now2).1 req now3).2 = .ok e) := by
  constructor
  · refine ⟨?_, ?_, ?_⟩
    · intro hsc
      rw [post_entry_softclosed hres hj hsc]
    · intro hcl
      rw [post_entry_closed hres hj hcl]
    · intro hopen hval
      obtain ⟨e, he, -⟩ := post_entry_open_ok hres hj hopen hval
      exact ⟨e, he⟩
  · intro hTid hJid hAct hval
    have hj' : mfind s.journals (lockReq.tenant.tenant_id, lockReq.journal_id) = some journal := by
      rw [hTid, hJid]
      exact hj
    have hlock := lock_period_found now2 hj'
    have hacc : (lock_period s lockReq now2).1.accounts = s.accounts := by
      rw [hlock]
      simp [record_audit_event]
    have hjour : mfind (lock_period s lockReq now2).1.journals (cid, req.entry.journal_id) =
        some (lockUpdatedJournal journal lockReq now2) := by
      rw [hlock]
      simp only [record_audit_event]
      rw [← hTid, ← hJid]
      exact mfind_minsert_self _ _ _
    have hopen' : (lockUpdatedJournal journal lockReq now2).period_state = .Open := by
      simp [lockUpdatedJournal, lockTarget, hAct]
    have hres' : resolve_lines (lock_period s lockReq now2).1.accounts req.entry.lines none =
        .ok (some cid) := by
      rw [hacc]
      exact hres
    obtain ⟨e, he, -⟩ := post_entry_open_ok hres' hjour hopen' hval
    exact ⟨e, he⟩

/-- C3 witness: the fixture soft-closed journal rejects the balanced entry
with the soft-close reason, and after `ReopenFull` the same entry posts. -/
theorem claim_C3_witness :
    (post_entry (mkLedgerState .SoftClosed) ⟨wEntryBal, wTenant, .Commit⟩ 0).2 =
      .error (.Rejected "soft-close prevents posting without override") ∧
    ∃ e, (post_entry (lock_period (mkLedgerState .SoftClosed) wLockReq 1).1
      ⟨wEntryBal, wTenant, .Commit⟩ 2).2 = .ok e := by
  have h := claim_C3 (mkLedgerState .SoftClosed) ⟨wEntryBal, wTenant, .Commit⟩ wLockReq
    0 1 2 "co-1" (mkJournal .SoftClosed) rfl rfl
  exact ⟨h.1.1 rfl, h.2 rfl rfl rfl rfl⟩

/-- C7: for an existing journal, every `lock_period` call succeeds from any
current state, sets the period state by the fixed action mapping, appends
exactly one record to the lock history (leaving earlier records untouched),
points `latest_lock` at it, and records exactly one audit event. -/
theorem claim_C7 (s : State) (r : LockPeriodRequest) (n : ℕ) (j : Journal)
    (hj : mfind s.journals (r.tenant.tenant_id, r.journal_id) = some j) :
    ∃ updated, (lock_period s r n).2 = .ok updated ∧
      updated.period_state = (match r.action with
        | .SoftClose => PeriodState.SoftClosed
        | .Close => .Closed
        | .ReopenSoft => .SoftClosed
        | .ReopenFull => .Open) ∧
      updated.lock_history = j.lock_history ++
        [⟨r.period, r.action, r.approval_reference, n, r.tenant.user_id⟩] ∧
      updated.latest_lock = some ⟨r.period, r.action, r.approval_reference, n, r.tenant.user_id⟩ ∧
      mfind (lock_period s r n).1.journals (r.tenant.tenant_id, r.journal_id) = some updated ∧
      (lock_period s r n).1.audit_events.length = s.audit_events.length + 1 := by
  have hlock := lock_period_found n hj
  refine ⟨lockUpdatedJournal j r n, by rw [hlock], ?_, rfl, rfl, ?_, ?_⟩
  · simp only [lockUpdatedJournal]
    cases r.action <;> rfl
  · rw [hlock]
    simp only [record_audit_event]
    exact mfind_minsert_self _ _ _
  · rw [hlock]
    simp [record_audit_event]

/-- C7 witness: soft-closing the fixture journal records one lock and one
audit event. -/
theorem audit_base_company {s : State} {f : AuditTrailFilter} :
    ∀ e ∈ audit_base s f, e.company_id = f.tenant.tenant_id := by
  intro e he
  unfold audit_base at he
  cases hent : f.entity_id with
  | none =>
    rw [hent] at he
    exact of_decide_eq_true (List.mem_filter.1 he).2
  | some ent =>
    rw [hent] at he
    exact of_decide_eq_true (List.mem_filter.1 (List.mem_filter.1 he).1).2

theorem audit_base_entity {s : State} {f : AuditTrailFilter} {ent : String}
    (hent : f.entity_id = some ent) : ∀ e ∈ audit_base s f, e.entity_id = ent := by
  intro e he
  unfold audit_base at he
  rw [hent] at he
  exact of_decide_eq_true (List.mem_filter.1 he).2

theorem apply_cursor_sub {c : Option String} {l : List AuditEvent} :
    ∀ e ∈ apply_cursor c l, e ∈ l := by
  intro e he
  cases c with
  | none => exact he
  | some cur =>
    simp only [apply_cursor] at he
    cases hidx : l.findIdx? (fun ev => decide (ev.id = cur)) with
    | none =>
      rw [hidx] at he
      exact he
    | some pos =>
      rw [hidx] at he
      exact List.drop_subset _ l he

theorem apply_limit_sub {lim : Option ℕ} {l : List AuditEvent} :
    ∀ e ∈ apply_limit lim l, e ∈ l := by
  intro e he
  cases lim with
  | none => exact he
  | some k =>
    simp only [apply_limit] at he
    by_cases hk : l.length > k
    · rw [if_pos hk] at he
      exact List.take_subset _ l he
    · rw [if_neg hk] at he
      exact he

/-- C8: every event returned by `list_audit_trail` belongs to the filter's
tenant (so a query scoped to one tenant never returns another tenant's events,
whatever the entity filter), matches the entity filter when given, the result
is cut after the cursor's position when the cursor matches, and never exceeds
the limit. -/
theorem claim_C8 (s : State) (f : AuditTrailFilter) :
    ∃ l, list_audit_trail s f = .ok l ∧
      (∀ e ∈ l, e.company_id = f.tenant.tenant_id) ∧
      (∀ ent, f.entity_id = some ent → ∀ e ∈ l, e.entity_id = ent) ∧
      (∀ lim, f.limit = some lim → l.length ≤ lim) ∧
      (∀ cur pos, f.cursor = some cur →
        (audit_base s f).findIdx? (fun e => decide (e.id = cur)) = some pos →
        l = apply_limit f.limit ((audit_base s f).drop (pos + 1))) := by
  refine ⟨apply_limit f.limit (apply_cursor f.cursor (audit_base s f)), rfl, ?_, ?_, ?_, ?_⟩
  · intro e he
    exact audit_base_company e (apply_cursor_sub e (apply_limit_sub e he))
  · intro ent hent e he
    exact audit_base_entity hent e (apply_cursor_sub e (apply_limit_sub e he))
  · intro lim hlim
    rw [hlim]
    simp only [apply_limit]
    by_cases hk : (apply_cursor f.cursor (audit_base s f)).length > lim
    · rw [if_pos hk]
      simp
    · rw [if_neg hk]
      exact le_of_not_lt hk
  · intro cur pos hcur hidx
    rw [hcur]
    simp only [apply_cursor, hidx]

/-- C8 witness: a query scoped to tenant co-2 for an entity id shared with
tenant co-1 stays inside co-2 and within its limit. -/
theorem claim_C8_witness :
    ∃ l, list_audit_trail wAuditState ⟨some "je-1", some 10, none, ⟨"co-2", "bob", [], none⟩⟩ =
      .ok l ∧
      (∀ e ∈ l, e.company_id = "co-2") ∧ (∀ e ∈ l, e.entity_id = "je-1") ∧ l.length ≤ 10 := by
  obtain ⟨l, h1, h2, h3, h4, -⟩ :=
    claim_C8 wAuditState ⟨some "je-1", some 10, none, ⟨"co-2", "bob", [], none⟩⟩
  exact ⟨l, h1, h2, fun e he => h3 "je-1" rfl e he, h4 10 rfl⟩

/-! ## Scoring lemmas -/

theorem clampQ_mono {x y lo hi : ℚ} (h : x ≤ y) : clampQ x lo hi ≤ clampQ y lo hi :=
  max_le_max le_rfl (min_le_min h le_rfl)

theorem clampQ_mem (x : ℚ) : 0 ≤ clampQ x 0 1 ∧ clampQ x 0 1 ≤ 1 :=
  ⟨le_max_left 0 _, max_le zero_le_one (min_le_right x 1)⟩

theorem score_mem (w : WeightedScoringStrategy) (p : MatchProposal) :
    0 ≤ w.score p ∧ w.score p ≤ 1 := by
  unfold WeightedScoringStrategy.score
  by_cases hT : w.amount_weight + w.date_weight + w.description_weight ≤ epsf32
  · simp [hT]
  · simp only [hT, if_false]
    exact clampQ_mem _

theorem normalize_amount_anti {w : WeightedScoringStrategy}
    (htol : 1 ≤ w.amount_tolerance_minor) {d1 d2 : ℤ} (h : |d1| ≤ |d2|) :
    w.normalize_amount d2 ≤ w.normalize_amount d1 := by
  unfold WeightedScoringStrategy.normalize_amount
  apply clampQ_mono
  have hpos : (0 : ℚ) < (w.amount_tolerance_minor : ℚ) := by
    exact_mod_cast lt_of_lt_of_le Int.zero_lt_one htol
  have hd : (|d1| : ℚ) / (w.amount_tolerance_minor : ℚ) ≤
      (|d2| : ℚ) / (w.amount_tolerance_minor : ℚ) := by
    apply div_le_div_of_nonneg_right ?_ hpos.le
    exact_mod_cast h
  linarith

theorem normalize_date_anti {w : WeightedScoringStrategy}
    (htol : 1 ≤ w.date_tolerance_days) {d1 d2 : ℤ} (h : |d1| ≤ |d2|) :
    w.normalize_date d2 ≤ w.normalize_date d1 := by
  unfold WeightedScoringStrategy.normalize_date
  apply clampQ_mono
  have hpos : (0 : ℚ) < (w.date_tolerance_days : ℚ) := by
    exact_mod_cast lt_of_lt_of_le Int.zero_lt_one htol
  have hd : (|d1| : ℚ) / (w.date_tolerance_days : ℚ) ≤
      (|d2| : ℚ) / (w.date_tolerance_days : ℚ) := by
    apply div_le_div_of_nonneg_right ?_ hpos.le
    exact_mod_cast h
  linarith

theorem score_le_score (w : WeightedScoringStrategy) (p q : MatchProposal)
    (haw : 0 ≤ w.amount_weight) (hdw : 0 ≤ w.date_weight) (hsw : 0 ≤ w.description_weight)
    (ha : w.normalize_amount q.amount_delta_minor ≤ w.normalize_amount p.amount_delta_minor)
    (hd : w.normalize_date q.date_delta_days ≤ w.normalize_date p.date_delta_days)
    (hs : description_similarity q.transaction_description q.journal_description ≤
      description_similarity p.transaction_description p.journal_description) :
    w.score q ≤ w.score p := by
  unfold WeightedScoringStrategy.score
  by_cases hT : w.amount_weight + w.date_weight + w.description_weight ≤ epsf32
  · simp [hT]
  · simp only [hT, if_false]
    have hTpos : 0 < w.amount_weight + w.date_weight + w.description_weight := by
      have he : (0 : ℚ) < epsf32 := by norm_num [epsf32]
      linarith [lt_of_not_le hT]
    apply clampQ_mono
    apply div_le_div_of_nonneg_right ?_ hTpos.le
    have h1 := mul_le_mul_of_nonneg_right ha haw
    have h2 := mul_le_mul_of_nonneg_right hd hdw
    have h3 := mul_le_mul_of_nonneg_right hs hsw
    linarith

/-- C9: every `WeightedScoringStrategy` score lies in [0,1]; for a strategy
built by `new` with non-negative weights, holding the descriptions fixed the
score is non-increasing as the absolute amount or date delta grows, and
holding the deltas fixed a higher description similarity never decreases the
score. -/
theorem claim_C9 (w : WeightedScoringStrategy) (aw dw sw : ℚ) (atol dtol : ℤ)
    (p q : MatchProposal) (haw : 0 ≤ aw) (hdw : 0 ≤ dw) (hsw : 0 ≤ sw) :
    (0 ≤ w.score p ∧ w.score p ≤ 1) ∧
    ((q.date_delta_days = p.date_delta_days →
        q.transaction_description = p.transaction_description →
        q.journal_description = p.journal_description →
        |p.amount_delta_minor| ≤ |q.amount_delta_minor| →
        (WeightedScoringStrategy.new aw dw sw atol dtol).score q ≤
          (WeightedScoringStrategy.new aw dw sw atol dtol).score p) ∧
      (q.amount_delta_minor = p.amount_delta_minor →
        q.transaction_description = p.transaction_description →
        q.journal_description = p.journal_description →
        |p.date_delta_days| ≤ |q.date_delta_days| →
        (WeightedScoringStrategy.new aw dw sw atol dtol).score q ≤
          (WeightedScoringStrategy.new aw dw sw atol dtol).score p) ∧
      (q.amount_delta_minor = p.amount_delta_minor →
        q.date_delta_days = p.date_delta_days →
        description_similarity q.transaction_description q.journal_description ≤
          description_similarity p.transaction_description p.journal_description →
        (WeightedScoringStrategy.new aw dw sw atol dtol).score q ≤
          (WeightedScoringStrategy.new aw dw sw atol dtol).score p)) := by
  have hat : 1 ≤ (WeightedScoringStrategy.new aw dw sw atol dtol).amount_tolerance_minor :=
    le_max_right atol 1
  have hdt : 1 ≤ (WeightedScoringStrategy.new aw dw sw atol dtol).date_tolerance_days :=
    le_max_right dtol 1
  refine ⟨score_mem w p, ?_, ?_, ?_⟩
  · intro hdate htd hjd habs
    refine score_le_score _ _ _ haw hdw hsw ?_ ?_ ?_
    · exact normalize_amount_anti hat habs
    · rw [hdate]
    · rw [htd, hjd]
  · intro hamt htd hjd habs
    refine score_le_score _ _ _ haw hdw hsw ?_ ?_ ?_
    · rw [hamt]
    · exact normalize_date_anti hdt habs
    · rw [htd, hjd]
  · intro hamt hdate hs
    refine score_le_score _ _ _ haw hdw hsw ?_ ?_ hs
    · rw [hamt]
    · rw [hdate]

/-- C9 witness: with the default strategy, a proposal 2500 minor units
further from the entry scores no higher, and scores stay in [0,1]. -/
theorem claim_C9_witness :
    (0 ≤ defaultWeighted.score wProposal ∧ defaultWeighted.score wProposal ≤ 1) ∧
    defaultWeighted.score wProposalFar ≤ defaultWeighted.score wProposal := by
  have h := claim_C9 defaultWeighted (45/100) (35/100) (20/100) 5000 7 wProposal wProposalFar
    (by norm_num) (by norm_num) (by norm_num)
  exact ⟨h.1, h.2.1 rfl rfl rfl (by decide)⟩

theorem rev_id_ne (a : String) (n : ℕ) : rev_id a n ≠ a := by
  intro h
  have hl := congrArg String.length h
  rw [rev_id, String.length_append, String.length_append,
    show ("-rev-" : String).length = 5 from rfl] at hl
  omega

theorem reverse_entry_found {s : State} {eid : String} {entry : JournalEntry} {co : String}
    (reason : String) (t : TenantContext) (now : ℕ)
    (hentry : mfind s.entries eid = some entry)
    (hco : mfind s.entry_companies eid = some co)
    (hst : entry.status = .Posted)
    (hrev : entry.reversed_by_entry_id = none) :
    reverse_entry s ⟨eid, reason, t⟩ now =
      (record_audit_event
        (record_audit_event
          { s with
            entries := minsert
              (minsert s.entries eid
                { entry with
                  reversed_by_entry_id := some (rev_id entry.id (s.entries.length + 1)) })
              (rev_id entry.id (s.entries.length + 1))
              (revEntry entry reason (s.entries.length + 1))
            entry_companies := minsert s.entry_companies
              (rev_id entry.id (s.entries.length + 1)) co }
          co entry.id (some t.user_id) ("Reversal requested: " ++ reason) now)
        co (rev_id entry.id (s.entries.length + 1)) (some t.user_id)
        ("Reversal of " ++ entry.id ++ ": " ++ reason) now,
      .ok (revEntry entry reason (s.entries.length + 1))) := by
  simp only [reverse_entry, hentry, hco, hst, hrev, revEntry, rev_id, ne_eq,
    Option.isSome_none, Bool.false_eq_true, if_false, reduceCtorEq, ite_false]
  simp

/-- C4: reversing a stored entry fails NotFound when absent, Rejected when not
posted or already reversed, and otherwise stores a Posted reversal with sides
flipped and amounts, currencies, rates and tax codes preserved, origin
Adjustment, back-link to the original, sets the original's
`reversed_by_entry_id`, records exactly two audit events, and a second
reversal of the same entry then fails Rejected "entry already reversed". -/
theorem claim_C4 (s : State) (eid reason : String) (t : TenantContext) (now : ℕ) :
    (mfind s.entries eid = none →
      (reverse_entry s ⟨eid, reason, t⟩ now).2 = .error (.NotFound ("entry " ++ eid))) ∧
    (∀ entry co, mfind s.entries eid = some entry → mfind s.entry_companies eid = some co →
      ((entry.status ≠ .Posted →
          (reverse_entry s ⟨eid, reason, t⟩ now).2 = .error (.Rejected "entry is not posted")) ∧
       (entry.status = .Posted → entry.reversed_by_entry_id ≠ none →
          (reverse_entry s ⟨eid, reason, t⟩ now).2 = .error (.Rejected "entry already reversed")) ∧
       (entry.status = .Posted → entry.reversed_by_entry_id = none → entry.id = eid →
          ∃ rev, (reverse_entry s ⟨eid, reason, t⟩ now).2 = .ok rev ∧
            rev.status = .Posted ∧
            rev.origin = .Adjustment ∧
            rev.reverses_entry_id = some eid ∧
            rev.lines.length = entry.lines.length ∧
            (∀ i (hi : i < rev.lines.length) (hi' : i < entry.lines.length),
              (rev.lines.get ⟨i, hi⟩).side = flipSide (entry.lines.get ⟨i, hi'⟩).side ∧
              (rev.lines.get ⟨i, hi⟩).amount_minor = (entry.lines.get ⟨i, hi'⟩).amount_minor ∧
              (rev.lines.get ⟨i, hi⟩).functional_amount_minor =
                (entry.lines.get ⟨i, hi'⟩).functional_amount_minor ∧
              (rev.lines.get ⟨i, hi⟩).currency = (entry.lines.get ⟨i, hi'⟩).currency ∧
              (rev.lines.get ⟨i, hi⟩).functional_currency =
                (entry.lines.get ⟨i, hi'⟩).functional_currency ∧
              (rev.lines.get ⟨i, hi⟩).exchange_rate = (entry.lines.get ⟨i, hi'⟩).exchange_rate ∧
              (rev.lines.get ⟨i, hi⟩).tax_code = (entry.lines.get ⟨i, hi'⟩).tax_code) ∧
            mfind (reverse_entry s ⟨eid, reason, t⟩ now).1.entries rev.id = some rev ∧
            mfind (reverse_entry s ⟨eid, reason, t⟩ now).1.entries eid =
              some { entry with reversed_by_entry_id := some rev.id } ∧
            (reverse_entry s ⟨eid, reason, t⟩ now).1.audit_events.length =
              s.audit_events.length + 2 ∧
            (∀ reason2 t2 now2,
              (reverse_entry (reverse_entry s ⟨eid, reason, t⟩ now).1
                ⟨eid, reason2, t2⟩ now2).2 = .error (.Rejected "entry already reversed"))))) := by
  constructor
  · intro hnone
    simp only [reverse_entry, hnone]
  · intro entry co hentry hco
    refine ⟨?_, ?_, ?_⟩
    · intro hst
      simp only [reverse_entry, hentry, hco, hst, ne_eq, not_false_eq_true, if_true,
        ite_true]
    · intro hst hrev
      obtain ⟨x, hx⟩ := Option.ne_none_iff_exists'.1 hrev
      simp only [reverse_entry, hentry, hco, hst, hx, ne_eq, Option.isSome_some, if_true,
        not_true_eq_false, if_false, ite_false, ite_true, reduceCtorEq]
    · intro hst hrev hkey
      have hfound := reverse_entry_found reason t now hentry hco hst hrev
      set seq := s.entries.length + 1 with hseq
      have hne : eid ≠ rev_id entry.id seq := fun h => rev_id_ne entry.id seq (hkey ▸ h.symm)
      refine ⟨revEntry entry reason seq, by rw [hfound], rfl, rfl, by rw [revEntry, hkey], ?_,
        ?_, ?_, ?_, ?_, ?_⟩
      · simp [revEntry]
      · intro i hi hi'
        simp [revEntry]
      · rw [hfound]
        simp only [record_audit_event]
        exact mfind_minsert_self _ _ _
      · rw [hfound]
        simp only [record_audit_event, revEntry]
        rw [mfind_minsert_ne _ _ _ _ hne, mfind_minsert_self]
      · rw [hfound]
        simp [record_audit_event]
      · intro reason2 t2 now2
        have hup : mfind (reverse_entry s ⟨eid, reason, t⟩ now).1.entries eid =
            some { entry with reversed_by_entry_id := some (rev_id entry.id seq) } := by
          rw [hfound]
          simp only [record_audit_event]
          rw [mfind_minsert_ne _ _ _ _ hne, mfind_minsert_self]
        have hupco : mfind (reverse_entry s ⟨eid, reason, t⟩ now).1.entry_companies eid =
            some co := by
          rw [hfound]
          simp only [record_audit_event]
          rw [mfind_minsert_ne _ _ _ _ hne]
          exact hco
        set s2 := (reverse_entry s ⟨eid, reason, t⟩ now).1 with hs2
        simp only [reverse_entry, hup, hupco]
        simp [hst]

/-- C4 witness: posting the fixture entry and reversing it yields the flipped,
linked reversal, two audit events, and a failing second reversal. -/
theorem claim_C4_witness :
    ∃ rev, (reverse_entry wPostedState ⟨"je-1", "duplicate", wTenant⟩ 7).2 = .ok rev ∧
      rev.status = .Posted ∧
      rev.origin = .Adjustment ∧
      rev.reverses_entry_id = some "je-1" ∧
      rev.lines.length = wPostedEntry.lines.length ∧
      (∀ i (hi : i < rev.lines.length) (hi' : i < wPostedEntry.lines.length),
        (rev.lines.get ⟨i, hi⟩).side = flipSide (wPostedEntry.lines.get ⟨i, hi'⟩).side ∧
        (rev.lines.get ⟨i, hi⟩).amount_minor = (wPostedEntry.lines.get ⟨i, hi'⟩).amount_minor ∧
        (rev.lines.get ⟨i, hi⟩).functional_amount_minor =
          (wPostedEntry.lines.get ⟨i, hi'⟩).functional_amount_minor ∧
        (rev.lines.get ⟨i, hi⟩).currency = (wPostedEntry.lines.get ⟨i, hi'⟩).currency ∧
        (rev.lines.get ⟨i, hi⟩).functional_currency =
          (wPostedEntry.lines.get ⟨i, hi'⟩).functional_currency ∧
        (rev.lines.get ⟨i, hi⟩).exchange_rate = (wPostedEntry.lines.get ⟨i, hi'⟩).exchange_rate ∧
        (rev.lines.get ⟨i, hi⟩).tax_code = (wPostedEntry.lines.get ⟨i, hi'⟩).tax_code) ∧
      mfind (reverse_entry wPostedState ⟨"je-1", "duplicate", wTenant⟩ 7).1.entries rev.id =
        some rev ∧
      mfind (reverse_entry wPostedState ⟨"je-1", "duplicate", wTenant⟩ 7).1.entries "je-1" =
        some { wPostedEntry with reversed_by_entry_id := some rev.id } ∧
      (reverse_entry wPostedState ⟨"je-1", "duplicate", wTenant⟩ 7).1.audit_events.length =
        wPostedState.audit_events.length + 2 ∧
      (∀ reason2 t2 now2,
        (reverse_entry (reverse_entry wPostedState ⟨"je-1", "duplicate", wTenant⟩ 7).1
          ⟨"je-1", reason2, t2⟩ now2).2 = .error (.Rejected "entry already reversed")) :=
  ((claim_C4 wPostedState "je-1" "duplicate" wTenant 7).2 wPostedEntry "co-1"
    rfl rfl).2.2 rfl rfl rfl

theorem claim_C7_witness :
    ∃ updated,
      (lock_period (mkLedgerState .Open) ⟨"jnl-gl", ⟨2024, 1⟩, .SoftClose, none, wTenant⟩ 5).2 =
        .ok updated ∧
      updated.period_state = PeriodState.SoftClosed ∧
      updated.lock_history = [⟨⟨2024, 1⟩, .SoftClose, none, 5, "tester"⟩] ∧
      updated.latest_lock = some ⟨⟨2024, 1⟩, .SoftClose, none, 5, "tester"⟩ ∧
      mfind (lock_period (mkLedgerState .Open)
          ⟨"jnl-gl", ⟨2024, 1⟩, .SoftClose, none, wTenant⟩ 5).1.journals ("co-1", "jnl-gl") =
        some updated ∧
      (lock_period (mkLedgerState .Open)
          ⟨"jnl-gl", ⟨2024, 1⟩, .SoftClose, none, wTenant⟩ 5).1.audit_events.length =
        (mkLedgerState .Open).audit_events.length + 1 :=
  claim_C7 (mkLedgerState .Open) ⟨"jnl-gl", ⟨2024, 1⟩, .SoftClose, none, wTenant⟩ 5
    (mkJournal .Open) rfl

/-! ## Reconciliation session lemmas -/

theorem accept_loop_no_match (cid : String) :
    ∀ l : List MatchCandidate, (∀ c ∈ l, c.id ≠ cid) →
      accept_loop cid l =
        (l.map (fun d => if isPendingOrPartial d.status then { d with status := .Rejected } else d),
          none, none)
  | [] => fun _ => rfl
  | c :: rest => fun h => by
    have hc : ¬ c.id = cid := h c (List.mem_cons_self c rest)
    have ih := accept_loop_no_match cid rest (fun d hd => h d (List.mem_cons_of_mem c hd))
    simp only [accept_loop, hc, if_false, ih, List.map_cons]
    by_cases hp : isPendingOrPartial c.status <;> simp [hp]

theorem accept_loop_found (cid : String) :
    ∀ l : List MatchCandidate, (l.map MatchCandidate.id).Nodup →
      ∀ c ∈ l, c.id = cid → isPendingOrPartial c.status = true →
      accept_loop cid l =
        (l.map (acceptMapFn cid),
          some { c with status := .Accepted, write_off_reason := none }, none)
  | [], _, c, hc, _, _ => absurd hc (List.not_mem_nil c)
  | c0 :: rest, hnodup, c, hc, hid, hp => by
    rw [List.map_cons, List.nodup_cons] at hnodup
    obtain ⟨hnotin, hnodup_rest⟩ := hnodup
    by_cases h0 : c0.id = cid
    · have hceq : c = c0 := by
        rcases List.mem_cons.1 hc with rfl | hcr
        · rfl
        · exfalso
          apply hnotin
          rw [h0, ← hid]
          exact List.mem_map_of_mem MatchCandidate.id hcr
      subst hceq
      have hrest_ne : ∀ d ∈ rest, d.id ≠ cid := by
        intro d hd he
        apply hnotin
        rw [h0, ← he]
        exact List.mem_map_of_mem MatchCandidate.id hd
      have hmaps : rest.map
            (fun d => if isPendingOrPartial d.status then { d with status := CandidateStatus.Rejected } else d) =
          rest.map (acceptMapFn cid) :=
        List.map_congr_left (fun d hd => by simp [acceptMapFn, hrest_ne d hd])
      simp only [accept_loop, h0, hp, if_true, ite_true,
        accept_loop_no_match cid rest hrest_ne, List.map_cons]
      simp [acceptMapFn, h0, hmaps]
    · have hcr : c ∈ rest := by
        rcases List.mem_cons.1 hc with rfl | hcr
        · exact absurd hid h0
        · exact hcr
      have ih := accept_loop_found cid rest hnodup_rest c hcr hid hp
      by_cases hp0 : isPendingOrPartial c0.status
      · simp [accept_loop, h0, hp0, ih, acceptMapFn]
      · simp [accept_loop, h0, hp0, ih, acceptMapFn]

/-- C5: accepting a pending (or partially accepted) candidate in a non-closed
session with distinct candidate ids accepts exactly that candidate with its
write-off reason cleared, auto-rejects every other pending or partially
accepted candidate, and closes the session; an absent id fails
`CandidateNotFound`. -/
theorem claim_C5 (s : ReconciliationSession) (cid : String)
    (hstatus : s.status ≠ .Closed) (hnodup : (s.candidates.map MatchCandidate.id).Nodup) :
    (∀ c ∈ s.candidates, c.id = cid → isPendingOrPartial c.status = true →
      (s.accept cid).2 = .ok { c with status := .Accepted, write_off_reason := none } ∧
      (s.accept cid).1 = { s with
        status := .Closed
        candidates := s.candidates.map (fun d =>
          if d.id = cid then { d with status := .Accepted, write_off_reason := none }
          else if isPendingOrPartial d.status then { d with status := .Rejected }
          else d) }) ∧
    ((∀ c ∈ s.candidates, c.id ≠ cid) →
      (s.accept cid).2 = .error (.CandidateNotFound cid)) := by
  have hok : s.ensure_mutable = .ok () := by
    unfold ReconciliationSession.ensure_mutable
    rw [if_neg hstatus]
  constructor
  · intro c hc hid hp
    have hloop := accept_loop_found cid s.candidates hnodup c hc hid hp
    constructor
    · simp only [ReconciliationSession.accept, hok, hloop]
    · simp only [ReconciliationSession.accept, hok, hloop]
      rfl
  · intro hnone
    have hloop := accept_loop_no_match cid s.candidates hnone
    simp only [ReconciliationSession.accept, hok, hloop]

/-- C5 witness: accepting c1 in the two-candidate fixture session accepts c1,
rejects c2, and closes the session. -/
theorem claim_C5_witness :
    (wSession.accept "c1").2 = .ok { wCand1 with status := .Accepted, write_off_reason := none } ∧
    (wSession.accept "c1").1 = { wSession with
      status := .Closed
      candidates := wSession.candidates.map (fun d =>
        if d.id = "c1" then { d with status := .Accepted, write_off_reason := none }
        else if isPendingOrPartial d.status then { d with status := .Rejected }
        else d) } :=
  (claim_C5 wSession "c1" (by decide) (by decide)).1 wCand1 (by decide) rfl rfl

theorem partial_loop_no_match (gid : String) (ids : List String) :
    ∀ l : List MatchCandidate, (∀ c ∈ l, c.id ∉ ids) → partial_loop gid ids l = (l, [], none)
  | [] => fun _ => rfl
  | c :: rest => fun h => by
    have hc : c.id ∉ ids := h c (List.mem_cons_self c rest)
    have ih := partial_loop_no_match gid ids rest (fun d hd => h d (List.mem_cons_of_mem c hd))
    simp [partial_loop, hc, ih]

theorem partial_loop_all_good (gid : String) (ids : List String) :
    ∀ l : List MatchCandidate,
      (∀ c ∈ l, c.id ∈ ids → c.group_id = some gid ∧ c.status = .Pending) →
      partial_loop gid ids l =
        (l.map (partialMapFn ids),
          (l.filter (fun c => decide (c.id ∈ ids))).map (partialMapFn ids), none)
  | [] => fun _ => rfl
  | c :: rest => fun h => by
    have ih := partial_loop_all_good gid ids rest (fun d hd => h d (List.mem_cons_of_mem c hd))
    by_cases hm : c.id ∈ ids
    · obtain ⟨hg, hst⟩ := h c (List.mem_cons_self c rest) hm
      simp [partial_loop, hm, hg, hst, ih, partialMapFn, List.filter_cons]
    · simp [partial_loop, hm, ih, partialMapFn, List.filter_cons]

theorem partial_loop_err (gid : String) (ids : List String) :
    ∀ l : List MatchCandidate,
      (∃ c ∈ l, c.id ∈ ids ∧ (c.group_id ≠ some gid ∨ c.status ≠ .Pending)) →
      ∃ m, (partial_loop gid ids l).2.2 = some (.InvalidTransition m)
  | [], h => absurd h.choose_spec.1 (List.not_mem_nil h.choose)
  | c0 :: rest, h => by
    obtain ⟨c, hc, hm, hbad⟩ := h
    by_cases hm0 : c0.id ∈ ids
    · by_cases hg0 : c0.group_id = some gid
      · by_cases hs0 : c0.status = .Pending
        · have hcr : c ∈ rest := by
            rcases List.mem_cons.1 hc with rfl | hcr
            · rcases hbad with hb | hb
              · exact absurd hg0 hb
              · exact absurd hs0 hb
            · exact hcr
          obtain ⟨m, hm'⟩ := partial_loop_err gid ids rest ⟨c, hcr, hm, hbad⟩
          exact ⟨m, by simp [partial_loop, hm0, hg0, hs0, hm']⟩
        · exact ⟨"candidate " ++ c0.id ++ " is not pending",
            by simp [partial_loop, hm0, hg0, hs0]⟩
      · exact ⟨"candidate " ++ c0.id ++ " does not belong to group " ++ gid,
          by simp [partial_loop, hm0, hg0]⟩
    · have hcr : c ∈ rest := by
        rcases List.mem_cons.1 hc with rfl | hcr
        · exact absurd hm hm0
        · exact hcr
      obtain ⟨m, hm'⟩ := partial_loop_err gid ids rest ⟨c, hcr, hm, hbad⟩
      exact ⟨m, by simp [partial_loop, hm0, hm']⟩

/-- C6 counterexample: `accept_partial` with one matching candidate and one id
that names no candidate in the session succeeds — the unknown id is silently
ignored — refuting "if any supplied id does not exist in the session the call
fails InvalidTransition". -/
theorem claim_C6_cex :
    (∀ c ∈ wSession.candidates, c.id ≠ "ghost") ∧
    (svc_partial_accept wStore "s1" "g1" ["c1", "ghost"]).2 =
      .ok [{ wCand1 with status := .PartiallyAccepted }] := by
  exact ⟨by decide, rfl⟩

/-- C6 (amended): an empty id list fails `InvalidTransition`; if no supplied
id matches any candidate the call fails `InvalidTransition`; if some matching
candidate is outside the requested group or not Pending the call fails
`InvalidTransition`; otherwise every candidate whose id is supplied moves to
`PartiallyAccepted` and the stored session becomes `PendingPartial` (supplied
ids with no matching candidate are ignored). -/
theorem claim_C6 (store : ReconStore) (sid gid : String) (ids : List String)
    (sess : ReconciliationSession) (hs : mfind store sid = some sess)
    (hid : sess.id = sid) (hopen : sess.status ≠ .Closed) :
    (ids = [] → (svc_partial_accept store sid gid ids).2 =
      .error (.InvalidTransition "partial accept requires at least one candidate")) ∧
    ((∀ c ∈ sess.candidates, c.id ∉ ids) → ids ≠ [] →
      ∃ m, (svc_partial_accept store sid gid ids).2 = .error (.InvalidTransition m)) ∧
    ((∃ c ∈ sess.candidates, c.id ∈ ids ∧ (c.group_id ≠ some gid ∨ c.status ≠ .Pending)) →
      ∃ m, (svc_partial_accept store sid gid ids).2 = .error (.InvalidTransition m)) ∧
    ((∃ c ∈ sess.candidates, c.id ∈ ids) →
      (∀ c ∈ sess.candidates, c.id ∈ ids → c.group_id = some gid ∧ c.status = .Pending) →
      ∃ upd, (svc_partial_accept store sid gid ids).2 = .ok upd ∧
        (svc_partial_accept store sid gid ids).1 = minsert store sid
          { sess with
            status := .PendingPartial
            candidates := sess.candidates.map (fun c =>
              if c.id ∈ ids then { c with status := .PartiallyAccepted } else c) }) := by
  have hget : get_session store sid = .ok sess := by
    unfold get_session
    rw [hs]
  have hmut : sess.ensure_mutable = .ok () := by
    unfold ReconciliationSession.ensure_mutable
    rw [if_neg hopen]
  refine ⟨?_, ?_, ?_, ?_⟩
  · rintro rfl
    simp [svc_partial_accept, modify_session, hget, ReconciliationSession.partial_accept, hmut]
  · intro hnm hne
    have hloop := partial_loop_no_match gid ids sess.candidates hnm
    refine ⟨"no pending candidates were found for group " ++ gid, ?_⟩
    simp [svc_partial_accept, modify_session, hget, ReconciliationSession.partial_accept,
      hmut, isEmpty_false_of_ne_nil hne, hloop]
  · intro hex
    have hne : ids ≠ [] := by
      obtain ⟨c, -, hm, -⟩ := hex
      intro h
      rw [h] at hm
      exact List.not_mem_nil _ hm
    obtain ⟨m, hm'⟩ := partial_loop_err gid ids sess.candidates hex
    rcases h3 : partial_loop gid ids sess.candidates with ⟨cands, upd, err⟩
    rw [h3] at hm'
    simp only at hm'
    subst hm'
    refine ⟨m, ?_⟩
    simp [svc_partial_accept, modify_session, hget, ReconciliationSession.partial_accept,
      hmut, isEmpty_false_of_ne_nil hne, h3]
  · intro hex hgood
    have hne : ids ≠ [] := by
      obtain ⟨c, -, hm⟩ := hex
      intro h
      rw [h] at hm
      exact List.not_mem_nil _ hm
    have hloop := partial_loop_all_good gid ids sess.candidates hgood
    have hupdne : (sess.candidates.filter (fun c => decide (c.id ∈ ids))).map
        (partialMapFn ids) ≠ [] := by
      obtain ⟨c, hc, hm⟩ := hex
      intro h
      have : c ∈ sess.candidates.filter (fun c => decide (c.id ∈ ids)) :=
        List.mem_filter.2 ⟨hc, by simp [hm]⟩
      rw [List.map_eq_nil_iff] at h
      rw [h] at this
      exact List.not_mem_nil _ this
    have hsave : save_session store
        { sess with
          status := .PendingPartial
          candidates := sess.candidates.map (partialMapFn ids) } =
        .ok (minsert store sid
          { sess with
            status := .PendingPartial
            candidates := sess.candidates.map (partialMapFn ids) }) := by
      unfold save_session
      simp only [hid, hs, Option.isSome_some, if_true, ite_true]
    refine ⟨(sess.candidates.filter (fun c => decide (c.id ∈ ids))).map (partialMapFn ids),
      ?_, ?_⟩
    · simp [svc_partial_accept, modify_session, hget, ReconciliationSession.partial_accept,
        hmut, isEmpty_false_of_ne_nil hne, hloop, List.isEmpty_iff, hupdne, hsave]
    · simp only [svc_partial_accept, modify_session, hget, ReconciliationSession.partial_accept,
        hmut, isEmpty_false_of_ne_nil hne, Bool.false_eq_true, if_false, hloop,
        List.isEmpty_iff, hupdne, ite_false, hsave]
      rfl

/-- C6 witness: supplying both pending group-g1 candidates moves them to
`PartiallyAccepted` and stores the session as `PendingPartial`. -/
theorem claim_C6_witness :
    ∃ upd, (svc_partial_accept wStore "s1" "g1" ["c1", "c2"]).2 = .ok upd ∧
      (svc_partial_accept wStore "s1" "g1" ["c1", "c2"]).1 = minsert wStore "s1"
        { wSession with
          status := .PendingPartial
          candidates := wSession.candidates.map (fun c =>
            if c.id ∈ ["c1", "c2"] then { c with status := .PartiallyAccepted } else c) } :=
  (claim_C6 wStore "s1" "g1" ["c1", "c2"] wSession rfl rfl (by decide)).2.2.2
    ⟨wCand1, by decide, by decide⟩ (by decide)

/-! ## Store-isolation lemmas -/

theorem modify_session_error {T : Type} (store : ReconStore) (sid : String)
    (mu : ReconciliationSession → ReconciliationSession × Except ReconcileError T)
    (e : ReconcileError) (h : (modify_session store sid mu).2 = .error e) :
    (modify_session store sid mu).1 = store := by
  unfold modify_session at h ⊢
  cases hget : get_session store sid with
  | error e' => rfl
  | ok sess =>
    cases hr : (mu sess).2 with
    | error e' => simp [hr]
    | ok t =>
      cases hsave : save_session store (mu sess).1 with
      | error e' => simp [hr, hsave]
      | ok store' => simp [hget, hr, hsave] at h

/-- C10: every reconciliation-service mutator that returns an error leaves
the stored session untouched — the mutation runs on a fetched copy and
`save_session` is skipped on error; in particular `accept` with an absent
candidate id fails `CandidateNotFound` without changing the store, even
though the in-memory pass had already marked the pending siblings Rejected
on the local copy. -/
theorem claim_C10 (store : ReconStore) (sid cid gid reason : String) (ids : List String)
    (p : MatchProposal) (ncid : String) (now : ℕ) (scoring : MatchProposal → ℚ) :
    (∀ e, (svc_add_candidate scoring store sid p ncid now).2 = .error e →
      (svc_add_candidate scoring store sid p ncid now).1 = store) ∧
    (∀ e, (svc_accept store sid cid).2 = .error e → (svc_accept store sid cid).1 = store) ∧
    (∀ e, (svc_reject store sid cid).2 = .error e → (svc_reject store sid cid).1 = store) ∧
    (∀ e, (svc_partial_accept store sid gid ids).2 = .error e →
      (svc_partial_accept store sid gid ids).1 = store) ∧
    (∀ e, (svc_write_off store sid cid reason).2 = .error e →
      (svc_write_off store sid cid reason).1 = store) ∧
    (∀ e, (svc_reopen store sid).2 = .error e → (svc_reopen store sid).1 = store) ∧
    (∀ sess, mfind store sid = some sess → sess.status ≠ .Closed →
      (∀ c ∈ sess.candidates, c.id ≠ cid) →
      (svc_accept store sid cid).2 = .error (.CandidateNotFound cid) ∧
      (svc_accept store sid cid).1 = store ∧
      (sess.accept cid).1.candidates = sess.candidates.map
        (fun d => if isPendingOrPartial d.status then { d with status := .Rejected } else d)) := by
  have haux : ∀ (T : Type)
      (mu : ReconciliationSession → ReconciliationSession × Except ReconcileError T)
      (st : ReconStore) (r : Except ReconcileError (ReconciliationSession × T)),
      modify_session store sid mu = (st, r) → (∃ e, r = .error e) → st = store := by
    rintro T mu st r hm ⟨e, rfl⟩
    have := modify_session_error store sid mu e (by rw [hm])
    rw [hm] at this
    exact this
  refine ⟨?_, ?_, ?_, ?_, ?_, ?_, ?_⟩
  · intro e h
    simp only [svc_add_candidate] at h ⊢
    rcases hm : modify_session store sid _ with ⟨st, r⟩
    rw [hm] at h
    cases r with
    | error e' => exact haux _ _ st _ hm ⟨e', rfl⟩
    | ok x => exact Except.noConfusion h
  · intro e h
    unfold svc_accept at h ⊢
    rcases hm : modify_session store sid _ with ⟨st, r⟩
    rw [hm] at h
    cases r with
    | error e' => exact haux _ _ st _ hm ⟨e', rfl⟩
    | ok x =>
      rcases x with ⟨sess', c⟩
      exact Except.noConfusion h
  · intro e h
    unfold svc_reject at h ⊢
    rcases hm : modify_session store sid _ with ⟨st, r⟩
    rw [hm] at h
    cases r with
    | error e' => exact haux _ _ st _ hm ⟨e', rfl⟩
    | ok x =>
      rcases x with ⟨sess', c⟩
      exact Except.noConfusion h
  · intro e h
    unfold svc_partial_accept at h ⊢
    rcases hm : modify_session store sid _ with ⟨st, r⟩
    rw [hm] at h
    cases r with
    | error e' => exact haux _ _ st _ hm ⟨e', rfl⟩
    | ok x =>
      rcases x with ⟨sess', cs⟩
      exact Except.noConfusion h
  · intro e h
    unfold svc_write_off at h ⊢
    rcases hm : modify_session store sid _ with ⟨st, r⟩
    rw [hm] at h
    cases r with
    | error e' => exact haux _ _ st _ hm ⟨e', rfl⟩
    | ok x =>
      rcases x with ⟨sess', c⟩
      exact Except.noConfusion h
  · intro e h
    unfold svc_reopen at h ⊢
    rcases hm : modify_session store sid _ with ⟨st, r⟩
    rw [hm] at h
    cases r with
    | error e' => exact haux _ _ st _ hm ⟨e', rfl⟩
    | ok x =>
      rcases x with ⟨sess', u⟩
      exact Except.noConfusion h
  · intro sess hsess hopen hnm
    have hget : get_session store sid = .ok sess := by
      unfold get_session
      rw [hsess]
    have hmut : sess.ensure_mutable = .ok () := by
      unfold ReconciliationSession.ensure_mutable
      rw [if_neg hopen]
    have hloop := accept_loop_no_match cid sess.candidates hnm
    have hacc : sess.accept cid =
        ({ sess with
            candidates := sess.candidates.map (fun d =>
              if isPendingOrPartial d.status then { d with status := .Rejected } else d) },
          .error (.CandidateNotFound cid)) := by
      simp only [ReconciliationSession.accept, hmut, hloop]
    refine ⟨?_, ?_, ?_⟩
    · simp [svc_accept, modify_session, hget, hacc]
    · simp [svc_accept, modify_session, hget, hacc]
    · rw [hacc]

/-- C10 witness: accepting an id absent from the fixture session fails
`CandidateNotFound`, leaves the store unchanged, yet the local copy had both
pending candidates rejected. -/
theorem claim_C10_witness :
    (svc_accept wStore "s1" "zz").2 = .error (.CandidateNotFound "zz") ∧
    (svc_accept wStore "s1" "zz").1 = wStore ∧
    (wSession.accept "zz").1.candidates = wSession.candidates.map
      (fun d => if isPendingOrPartial d.status then { d with status := .Rejected } else d) :=
  (claim_C10 wStore "s1" "zz" "g" "r" [] wProposal "nc" 0 (fun _ => 0)).2.2.2.2.2.2
    wSession rfl (by decide) (by decide)

end CodexAcct
